import Mathlib

/-
Verification of the linode-cli schema compiler and request translator
(repository files: linodecli/cli.py, linodecli/args.py).

The Python code operates on untyped JSON-like values (dictionaries,
lists, strings, numbers, booleans, None).  We embed those values as the
inductive type `PyVal`, dictionaries as insertion-ordered association
lists (matching CPython dict semantics: lookup finds the unique binding,
assignment updates in place keeping position, new keys are appended at
the end), and fallible code as `Except String`.  Recursion that chases
schema references (which can diverge in Python on cyclic documents) is
made total with an explicit fuel parameter; all other recursion is
structural.
-/

set_option autoImplicit false

namespace LinodeCli

/-- A Python/JSON value as manipulated by cli.py. -/
inductive PyVal where
  | str (s : String)
  | int (n : Int)
  | bool (b : Bool)
  | list (xs : List PyVal)
  | dict (entries : List (String × PyVal))
  | none
deriving Inhabited

/-- A Python dictionary with string keys, in insertion order. -/
abbrev Dict := List (String × PyVal)

/-- Lookup in an insertion-ordered association list (Python `d[k]` / `d.get(k)`). -/
def lookupA {α : Type} : List (String × α) → String → Option α
  | [], _ => Option.none
  | (a, v) :: rest, k => if a = k then some v else lookupA rest k

/-- Python `k in d` for a dict. -/
def containsA {α : Type} (d : List (String × α)) (k : String) : Bool :=
  (lookupA d k).isSome

/-- Python `d[k] = v`: update the existing binding in place, else append. -/
def setA {α : Type} : List (String × α) → String → α → List (String × α)
  | [], k, v => [(k, v)]
  | (a, w) :: rest, k, v =>
    if a = k then (a, v) :: rest else (a, w) :: setA rest k v

/-- Python `del d[k]` on a dict (keys are unique, so dropping every binding
of `k` agrees with deleting the single one). -/
def removeA {α : Type} (d : List (String × α)) (k : String) : List (String × α) :=
  d.filter (fun kv => kv.1 ≠ k)

/-- Python `d.update(e)`: fold `d[k] = v` over the entries of `e`. -/
def updateA {α : Type} (d e : List (String × α)) : List (String × α) :=
  e.foldl (fun acc kv => setA acc kv.1 kv.2) d

/-- The keys of a dict, in order. -/
def keysA {α : Type} (d : List (String × α)) : List String :=
  d.map (fun kv => kv.1)

/-- Python truthiness of a value (`if x:`). -/
def pyTruthy : PyVal → Bool
  | .str s => !s.data.isEmpty
  | .int n => n != 0
  | .bool b => b
  | .list xs => !xs.isEmpty
  | .dict d => !d.isEmpty
  | .none => false

/-- Python `d.get(k)`: `None` when the key is absent. -/
def pyGet (d : Dict) (k : String) : PyVal :=
  (lookupA d k).getD .none

/-- Python `x or y`. -/
def pyOr (x y : PyVal) : PyVal :=
  if pyTruthy x then x else y

/-- Python `x in xs` for a string `x` and a list of values (`==` between a
string and a non-string is `False`). -/
def memStr (xs : List PyVal) (s : String) : Bool :=
  xs.any (fun v => match v with | .str t => t == s | _ => false)

/-- Python iteration over a container: a list yields its elements, a dict
its keys, a string its characters; other values raise `TypeError`. -/
def pyElems : PyVal → Except String (List PyVal)
  | .list xs => .ok xs
  | .dict d => .ok (d.map (fun kv => PyVal.str kv.1))
  | .str s => .ok (s.data.map (fun c => PyVal.str (String.mk [c])))
  | _ => .error "TypeError: not iterable"

/-- Is the value a dict? -/
def PyVal.isDict : PyVal → Bool
  | .dict _ => true
  | _ => false

/-- Is the value a list? -/
def PyVal.isList : PyVal → Bool
  | .list _ => true
  | _ => false

/-- Is the value Python `None`? -/
def PyVal.isNone : PyVal → Bool
  | .none => true
  | _ => false

/-! ### Python string helpers (split / join / replace), at character level -/

/-- Python `s.split(sep)` for a single-character separator, on char lists. -/
def splitCharsAux (sep : Char) : List Char → List (List Char)
  | [] => [[]]
  | c :: rest =>
    if c = sep then [] :: splitCharsAux sep rest
    else
      match splitCharsAux sep rest with
      | [] => [[c]]
      | h :: t => (c :: h) :: t

/-- Python `s.split(sep)` for a single-character separator. -/
def pySplitChar (sep : Char) (s : String) : List String :=
  (splitCharsAux sep s.data).map (fun l => String.mk l)

/-- Python `s.split(".")`. -/
def pySplitDot (s : String) : List String :=
  pySplitChar '.' s

/-- Python `".".join(parts)` on char lists. -/
def joinCharsDot : List (List Char) → List Char
  | [] => []
  | [x] => x
  | x :: y :: rest => x ++ '.' :: joinCharsDot (y :: rest)

/-- Python `".".join(parts)`. -/
def pyJoinDot (parts : List String) : String :=
  String.mk (joinCharsDot (parts.map String.data))

/-- Python `s.replace(pat, rep)` on char lists: replace every
non-overlapping occurrence, scanning left to right.  The extra `Nat`
argument only bounds the recursion (each step consumes at least one input
character, so an initial bound of `s.length` is always enough). -/
def replaceCharsAux (pat rep : List Char) : Nat → List Char → List Char
  | 0, s => s
  | _ + 1, [] => []
  | fuel + 1, c :: rest =>
    if pat ≠ [] ∧ pat.isPrefixOf (c :: rest) then
      rep ++ replaceCharsAux pat rep fuel ((c :: rest).drop pat.length)
    else
      c :: replaceCharsAux pat rep fuel rest

/-- Python `s.replace(pat, rep)`. -/
def pyReplace (s pat rep : String) : String :=
  String.mk (replaceCharsAux pat.data rep.data s.data.length s.data)

/-- A string is dot-free when it contains no `.` character. -/
def dotFree (s : String) : Prop := '.' ∉ s.data

instance (s : String) : Decidable (dotFree s) := by
  unfold dotFree; infer_instance

/-- Substring test on char lists (Python `pat in s` for strings). -/
def containsSub : List Char → List Char → Bool
  | [], pat => pat.isEmpty
  | c :: rest, pat => pat.isPrefixOf (c :: rest) || containsSub rest pat

/-- Python `pat in s` for strings. -/
def strContainsSub (s pat : String) : Bool :=
  containsSub s.data pat.data

/-- Coercion guard: the value must be a dict (Python raises otherwise). -/
def asDict : PyVal → Except String Dict
  | .dict d => .ok d
  | _ => .error "TypeError: expected a dict"

/-- Coercion guard: the value must be a string. -/
def asStrE : PyVal → Except String String
  | .str s => .ok s
  | _ => .error "TypeError: expected a string"

/-- Coercion guard: the value must be a list. -/
def asListE : PyVal → Except String (List PyVal)
  | .list xs => .ok xs
  | _ => .error "TypeError: expected a list"

/-- Python `info.get(k) or dflt` for string-valued schema fields (`type`,
`description`): a missing or falsy value yields the default.  Non-string
truthy values are not produced by OpenAPI schemas for these keys; they are
mapped to the default here, which leaves every downstream comparison
(`== "array"`, `== "json"`) unchanged. -/
def pyGetStrOr (d : Dict) (k dflt : String) : String :=
  match lookupA d k with
  | some (.str s) => if s.data.isEmpty then dflt else s
  | _ => dflt

/-! ## cli.py: the Reference Resolver -/

/-- Embeds `CLI._resolve_ref` (cli.py lines 71-86): split the pointer on
`/`, discard the first segment, and walk the document by key lookup; an
absent segment raises `KeyError`, indexing a non-dict raises `TypeError`. -/
def resolveRef (spec : PyVal) (ref : String) : Except String PyVal :=
  ((pySplitChar '/' ref).drop 1).foldlM
    (fun tmp part =>
      match tmp with
      | .dict d =>
        match lookupA d part with
        | some v => .ok v
        | Option.none => .error ("KeyError: " ++ part)
      | _ => .error ("TypeError: not subscriptable at " ++ part))
    spec

/-- Embeds the loop body of `CLI._resolve_allOf` (cli.py lines 46-69): for
each member, resolve a `$ref` if present; take its `properties` when it has
one; when the member was a `$ref` pointing into a `/properties/` location,
the resolved node is itself the property map; otherwise a warning is
printed and the member contributes nothing.  Members merge left to right
via `dict.update` (last write wins). -/
def resolveAllOfAux (spec : PyVal) : List PyVal → Dict → Except String Dict
  | [], ret => .ok ret
  | cur :: rest, ret => do
    let cd ← asDict cur
    let data ←
      match lookupA cd "$ref" with
      | some r => do
        let rs ← asStrE r
        resolveRef spec rs
      | Option.none => .ok (.dict cd)
    let props ←
      match data with
      | .dict dd =>
        if containsA dd "properties" then
          asDict (pyGet dd "properties")
        else if (match lookupA cd "$ref" with
                 | some (.str rs) => strContainsSub rs "/properties/"
                 | _ => false) then
          .ok dd
        else
          -- "Warning: Resolved empty node" is printed; the member is skipped.
          .ok ([] : Dict)
      | _ =>
        -- A non-dict resolved member either contributes nothing (warning
        -- branch) or fails the subsequent `dict.update`.
        if (match lookupA cd "$ref" with
            | some (.str rs) => strContainsSub rs "/properties/"
            | _ => false) then
          .error "TypeError: dict.update on a non-dict"
        else
          .ok ([] : Dict)
    resolveAllOfAux spec rest (updateA ret props)

/-- Embeds `CLI._resolve_allOf` (cli.py lines 46-69). -/
def resolveAllOf (spec : PyVal) (node : List PyVal) : Except String Dict :=
  resolveAllOfAux spec node []

/-- Embeds the `while "$ref" in info: info = self._resolve_ref(...)` loop
of `CLI._parse_args` (cli.py lines 103-104).  The loop can diverge in
Python on a cyclic reference chain; `fuel` bounds the number of hops. -/
def resolveRefChain (spec : PyVal) : Nat → Dict → Except String Dict
  | 0, d =>
    match lookupA d "$ref" with
    | Option.none => .ok d
    | some _ => .error "fuel exhausted resolving $ref chain"
  | fuel + 1, d =>
    match lookupA d "$ref" with
    | Option.none => .ok d
    | some r => do
      let rs ← asStrE r
      let rv ← resolveRef spec rs
      let d2 ← asDict rv
      resolveRefChain spec fuel d2

/-! ## cli.py: the Argument Schema Flattener -/

/-- The metadata record `CLI._parse_args` stores per dotted path (the dict
literal at cli.py lines 113-118, plus the optional `item_type` and
`list_item` keys added later). -/
structure ArgInfo where
  ty : String
  desc : String
  name : String
  fmt : Option String
  itemType : Option String := Option.none
  listItem : Option String := Option.none
deriving DecidableEq, Inhabited

/-- The accumulating `args` dict of `CLI._parse_args`: dotted path to info. -/
abbrev ArgsMap := List (String × ArgInfo)

/-- Python `info.get("x-linode-cli-format", info.get("format", None))`
(cli.py line 117): the extension key wins when present. -/
def getFmt (d : Dict) : Option String :=
  match lookupA d "x-linode-cli-format" with
  | some (.str s) => some s
  | some _ => Option.none
  | Option.none =>
    match lookupA d "format" with
    | some (.str s) => some s
    | _ => Option.none

/-- The argument record built at cli.py lines 113-118. -/
def mkArgInfo (name : String) (info : Dict) : ArgInfo :=
  { ty := pyGetStrOr info "type" "string"
    desc := pyGetStrOr info "description" ""
    name := name
    fmt := getFmt info }

/-- Embeds `CLI._parse_args` (cli.py lines 88-155), one recursive walk over
a `properties` dict.  For each property: resolve `allOf`, then chase `$ref`
until none remains; a node with nested `properties` is recursed into (the
current key extends the prefix) and emits no argument itself; read-only
leaves are skipped; otherwise an argument keyed by the dotted path is
recorded.  A `format == "json"` argument becomes an opaque object.  An
array records its item type; an array of objects with properties recurses
into the item properties with the same prefix, tags each resulting
argument with `list_item` equal to the array path, and deletes the
placeholder argument at the array path itself. -/
def parseArgs (spec : PyVal) : Nat → Dict → List String → ArgsMap → Except String ArgsMap
  | 0, _, _, _ => .error "fuel exhausted flattening arguments"
  | _ + 1, [], _, args => .ok args
  | fuel + 1, (name, infoV) :: rest, pfx, args => do
    let info0 ← asDict infoV
    let info1 ←
      if containsA info0 "allOf" then do
        let xs ← asListE (pyGet info0 "allOf")
        resolveAllOf spec xs
      else
        .ok info0
    let info ← resolveRefChain spec fuel info1
    if containsA info "properties" then do
      -- we can not edit this level of the tree: recurse and continue
      let props ← asDict (pyGet info "properties")
      let args' ← parseArgs spec fuel props (pfx ++ [name]) args
      parseArgs spec fuel rest pfx args'
    else if pyTruthy (pyGet info "readOnly") then
      parseArgs spec fuel rest pfx args
    else do
      -- cli.py lines 110-111; unreachable after the while loop, kept as in
      -- the source
      let info ←
        if containsA info "$ref" then do
          let rs ← asStrE (pyGet info "$ref")
          let rv ← resolveRef spec rs
          asDict rv
        else
          .ok info
      let path := pyJoinDot (pfx ++ [name])
      let base := mkArgInfo name info
      if base.fmt = some "json" then
        -- coming in as json: coerce the type and stop here
        parseArgs spec fuel rest pfx (setA args path { base with ty := "object" })
      else if base.ty = "array" && containsA info "items" then do
        let items0 := pyGet info "items"
        let items1 ←
          match items0 with
          | .dict di =>
            if containsA di "allOf" then do
              let xs ← asListE (pyGet di "allOf")
              let merged ← resolveAllOf spec xs
              .ok (PyVal.dict [("type", .str "object"), ("items", .dict merged)])
            else
              .ok items0
          | _ => .ok items0
        let items2 ←
          match items1 with
          | .dict di =>
            if containsA di "$ref" then do
              let rs ← asStrE (pyGet di "$ref")
              resolveRef spec rs
            else
              .ok items1
          | _ => .ok items1
        let di ← asDict items2
        let itemTy ←
          match lookupA di "type" with
          | some (.str t) => .ok t
          | some _ => .error "TypeError: non-string item type"
          | Option.none => .error "KeyError: type"
        let args1 := setA args path { base with itemType := some itemTy }
        if itemTy = "object" && containsA di "properties" && !pyTruthy (pyGet di "readOnly") then do
          let iprops ← asDict (pyGet di "properties")
          let itemArgs ← parseArgs spec fuel iprops (pfx ++ [name]) []
          let tagged := itemArgs.map (fun kv => (kv.1, { kv.2 with listItem := some path }))
          parseArgs spec fuel rest pfx (removeA (updateA args1 tagged) path)
        else
          parseArgs spec fuel rest pfx args1
      else
        parseArgs spec fuel rest pfx (setA args path base)

/-! ## cli.py: the Response Schema Flattener -/

/-- The displayable-attribute record. Modelled from the spec (section 3,
AttributeColumn): response.py is not part of the sources, but cli.py
constructs `ModelAttr(dottedPath, filterable, displayable, type,
color_map=..., item_type=...)` at lines 173-181. -/
structure ModelAttr where
  name : String
  filterable : Bool
  display : Bool
  datatype : String
  colorMap : PyVal := .none
  itemType : PyVal := .none
deriving Inhabited

/-- Embeds `CLI._parse_properties` (cli.py lines 157-184): walk a
`properties` dict; nested objects recurse with a dot-joined prefix, leaves
become `ModelAttr`s carrying the filterable/display/color extension flags
and the item type of arrays. -/
def parseProperties : Nat → Dict → List String → Except String (List ModelAttr)
  | 0, _, _ => .error "fuel exhausted flattening properties"
  | _ + 1, [], _ => .ok []
  | fuel + 1, (name, infoV) :: rest, pfx => do
    let info ← asDict infoV
    let here ←
      if containsA info "properties" then do
        let props ← asDict (pyGet info "properties")
        parseProperties fuel props (pfx ++ [name])
      else do
        let itemContainer := pyGet info "items"
        let itemType ←
          if pyTruthy itemContainer then do
            let ic ← asDict itemContainer
            .ok (pyGet ic "type")
          else
            .ok PyVal.none
        .ok ([{ name := pyJoinDot (pfx ++ [name])
                filterable := pyTruthy (pyGet info "x-linode-filterable")
                display := pyTruthy (pyGet info "x-linode-cli-display")
                datatype := pyGetStrOr info "type" "string"
                colorMap := pyGet info "x-linode-cli-color"
                itemType := itemType }] : List ModelAttr)
    let there ← parseProperties fuel rest pfx
    .ok (here ++ there)

/-- The response model record. Modelled from the spec (section 3,
ResponseModel): response.py is not part of the sources, but cli.py
constructs `ResponseModel(attrs, rows=..., nested_list=...)` at lines
337-339. -/
structure ResponseModel where
  attrs : List ModelAttr
  rows : PyVal := .none
  nestedList : PyVal := .none
deriving Inhabited

/-- Key lookup used in the response pipeline: `k in resp_con` where a
non-dict value never matches (the real schemas there are dicts). -/
def getK : PyVal → String → Option PyVal
  | .dict d, k => lookupA d k
  | _, _ => Option.none

/-- Embeds cli.py lines 314-319: the row schema is the resolved `$ref` of
the envelope `data.items` when it is a reference, else the literal items
node. -/
def resolveItems (spec items : PyVal) : Except String PyVal :=
  match getK items "$ref" with
  | some r => do
    let rs ← asStrE r
    resolveRef spec rs
  | Option.none => .ok items

/-- Embeds cli.py lines 303-339 starting from the selected response
schema: resolve a top-level `$ref`; merge an `allOf` into the node; unwrap
a pagination envelope (a `pages` counter alongside `data`, possibly one
level under `properties`) down to the row schema referenced or contained
in `data.items`; finally flatten `properties` into attributes and build
the `ResponseModel`, or yield no model when there are no properties. -/
def deriveResponseModel (spec : PyVal) (fuel : Nat) (respCon0 rows nestedList : PyVal) :
    Except String (Option ResponseModel) := do
  let respCon1 ←
    match getK respCon0 "$ref" with
    | some r => do
      let rs ← asStrE r
      resolveRef spec rs
    | Option.none => .ok respCon0
  let respCon2 ←
    match getK respCon1 "allOf" with
    | some v => do
      let xs ← asListE v
      let merged ← resolveAllOf spec xs
      let d ← asDict respCon1
      .ok (PyVal.dict (updateA d merged))
    | Option.none => .ok respCon1
  let respCon3 :=
    match getK respCon2 "properties" with
    | some (.dict props) => if containsA props "pages" then PyVal.dict props else respCon2
    | _ => respCon2
  let respCon4 ←
    if (getK respCon3 "pages").isSome && (getK respCon3 "data").isSome then do
      let dataV := (getK respCon3 "data").getD .none
      let dd ← asDict dataV
      let items ←
        match lookupA dd "items" with
        | some v => .ok v
        | Option.none => .error "KeyError: items"
      resolveItems spec items
    else
      .ok respCon3
  match getK respCon4 "properties" with
  | some pv => do
    let props ← asDict pv
    let attrs ← parseProperties fuel props []
    .ok (some { attrs := attrs, rows := rows, nestedList := nestedList })
  | Option.none => .ok Option.none

/-! ## cli.py: the Operation Compiler (bake) -/

/-- A URL parameter. Modelled from the spec (section 3, URLParam):
operation.py is not part of the sources, but cli.py constructs
`URLParam(info["name"], info["schema"]["type"])` at line 208 and clones
the shared list per method at line 364. -/
structure URLParam where
  name : String
  paramType : String
deriving DecidableEq, Inhabited

/-- An argument as registered on an operation. Modelled from the spec
(section 3, Argument): operation.py is not part of the sources, but cli.py
constructs `CLIArg(name, type, desc, path, fmt, list_item=...)` at lines
344-351 and then sets `required` and `arg_item_type`. -/
structure CLIArg where
  name : String
  datatype : String
  description : String
  path : String
  fmt : Option String
  listItem : Option String
  required : Bool := false
  argItemType : Option String := Option.none
deriving DecidableEq, Inhabited

/-- Embeds the CLIArg construction loop of `CLI.bake` (cli.py lines
341-359): the stored description is the text before the first `.` of the
schema description with a `.` appended; an argument is required when its
dict key (the dotted path) is a member of the gathered `required_fields`
list; arrays carry their item type. -/
def buildCLIArgs (args : ArgsMap) (requiredFields : List PyVal) : List CLIArg :=
  args.map (fun kv =>
    { name := kv.2.name
      datatype := kv.2.ty
      description := (pySplitDot kv.2.desc).headD "" ++ "."
      path := kv.1
      fmt := kv.2.fmt
      listItem := kv.2.listItem
      required := memStr requiredFields kv.1
      argItemType := kv.2.itemType })

/-- Embeds the collision pass of `CLI.bake` (cli.py lines 361-375): for
each (cloned) URL parameter whose name is a key of the args dict, the
placeholder `{name}` in the path template is rewritten to `{name_}` and
the parameter is renamed to `name_`. -/
def collisionPass (params : List URLParam) (args : ArgsMap) (path : String) :
    List URLParam × String :=
  params.foldl
    (fun st p =>
      if containsA args p.name then
        (st.1 ++ [⟨p.name ++ "_", p.paramType⟩],
         pyReplace st.2 ("\x7b" ++ p.name ++ "\x7d") ("\x7b" ++ p.name ++ "_\x7d"))
      else
        (st.1 ++ [p], st.2))
    ([], path)

/-- Embeds the URL-parameter extraction of `CLI.bake` (cli.py lines
203-208): each entry of the path-level `parameters` block, after `$ref`
resolution, yields `URLParam(info["name"], info["schema"]["type"])`. -/
def extractParams (spec : PyVal) (data : Dict) : Except String (List URLParam) := do
  match lookupA data "parameters" with
  | Option.none => .ok []
  | some v => do
    let xs ← pyElems v
    xs.foldlM
      (fun acc infoV => do
        let info0 ← asDict infoV
        let info ←
          if containsA info0 "$ref" then do
            let rs ← asStrE (pyGet info0 "$ref")
            let rv ← resolveRef spec rs
            asDict rv
          else
            .ok info0
        let n ←
          match lookupA info "name" with
          | some nv => asStrE nv
          | Option.none => .error "KeyError: name"
        let schemaD ←
          match lookupA info "schema" with
          | some sv => asDict sv
          | Option.none => .error "KeyError: schema"
        let t ←
          match lookupA schemaD "type" with
          | some tv => asStrE tv
          | Option.none => .error "KeyError: type"
        .ok (acc ++ [(⟨n, t⟩ : URLParam)]))
      []

/-- Embeds the required-field gathering and argument flattening for a JSON
request body, cli.py lines 257-278: `required` is collected from the raw
schema, again after `allOf` flattening, again after `$ref` resolution, and
again after narrowing to `properties` (each later check sees the schema as
it then is, so it finds a key literally named `required` at that layer),
then `_parse_args` runs on the final node. -/
def processBodySchema (spec : PyVal) (fuel : Nat) (bodySchema : PyVal) :
    Except String (ArgsMap × List PyVal) := do
  let bs0 ← asDict bodySchema
  let r1 ←
    match lookupA bs0 "required" with
    | some (.list xs) => .ok xs
    | some _ => .error "TypeError: required must be a list"
    | Option.none => .ok []
  let bs1 ←
    if containsA bs0 "allOf" then do
      let xs ← asListE (pyGet bs0 "allOf")
      resolveAllOf spec xs
    else
      .ok bs0
  let r2 ←
    match lookupA bs1 "required" with
    | some v => do
      let es ← pyElems v
      .ok (r1 ++ es)
    | Option.none => .ok r1
  let bs2 ←
    if containsA bs1 "$ref" then do
      let rs ← asStrE (pyGet bs1 "$ref")
      let rv ← resolveRef spec rs
      asDict rv
    else
      .ok bs1
  let r3 ←
    match lookupA bs2 "required" with
    | some v => do
      let es ← pyElems v
      .ok (r2 ++ es)
    | Option.none => .ok r2
  let bs3 ←
    if containsA bs2 "properties" then
      asDict (pyGet bs2 "properties")
    else
      .ok bs2
  let r4 ←
    match lookupA bs3 "required" with
    | some v => do
      let es ← pyElems v
      .ok (r3 ++ es)
    | Option.none => .ok r3
  let args ← parseArgs spec fuel bs3 [] []
  .ok (args, r4)

/-- Embeds the request-body branch of `CLI.bake` (cli.py lines 249-278):
only `post`/`put` methods with a `requestBody` holding
`content.application/json.schema` produce arguments; the
`x-linode-cli-allowed-defaults` override is captured alongside. -/
def processRequestBody (spec : PyVal) (fuel : Nat) (m : String) (dataM : Dict) :
    Except String (ArgsMap × List PyVal × PyVal) := do
  if (m == "post" || m == "put") && containsA dataM "requestBody" then do
    let rb ← asDict (pyGet dataM "requestBody")
    let allowedDefaults := pyGet rb "x-linode-cli-allowed-defaults"
    let content ←
      match lookupA rb "content" with
      | some cv => asDict cv
      | Option.none => .error "KeyError: content"
    if containsA content "application/json" then do
      let aj ← asDict (pyGet content "application/json")
      let bodySchema ←
        match lookupA aj "schema" with
        | some sv => .ok sv
        | Option.none => .error "KeyError: schema"
      let (args, required) ← processBodySchema spec fuel bodySchema
      .ok (args, required, allowedDefaults)
    else
      .ok ([], [], allowedDefaults)
  else
    .ok ([], [], .none)

/-- Embeds `CLI._flatten_url_path` (cli.py lines 722-726): lower-case,
strip everything but letters and spaces, then hyphenate spaces. -/
def flattenUrlPath (tag : String) : String :=
  String.mk
    (((tag.data.map Char.toLower).filter
        (fun c => ('a' ≤ c && c ≤ 'z') || c = ' ')).map
      (fun c => if c = ' ' then '-' else c))

/-- Embeds the server-URL comprehension `[c["url"] for c in ...]` (cli.py
lines 194 and 244). -/
def serverUrls (serversV : List PyVal) : Except String (List String) :=
  serversV.foldlM
    (fun acc c => do
      let cd ← asDict c
      match lookupA cd "url" with
      | some uv => do
        let u ← asStrE uv
        .ok (acc ++ [u])
      | Option.none => .error "KeyError: url")
    []

/-- A compiled operation. Modelled from the spec (section 3, Operation):
operation.py is not part of the sources, but cli.py constructs
`CLIOperation(command, action, method, url, summary, args, response_model,
params, servers, docs_url=..., allowed_defaults=..., action_aliases=...)`
at lines 377-390. -/
structure CLIOperation where
  command : String
  action : String
  method : String
  url : String
  summary : String
  args : List CLIArg
  responseModel : Option ResponseModel
  params : List URLParam
  servers : List String
  docsUrl : PyVal := .none
  allowedDefaults : PyVal := .none
  actionAliases : List PyVal := []
deriving Inhabited

/-- Embeds the per-method body of the bake loop (cli.py lines 210-390):
skip flagged methods; take the action id from the extension key or the
operation id (a list supplies the canonical action first and the aliases
after it, and an empty list or missing id skips the method with a
warning); build the docs URL when a tag and a summary exist; collect body
arguments and required fields; derive the response model for a 200 JSON
response (honoring the `x-linode-cli-use-schema` override and the rows and
nested-list extras); run the collision pass; and assemble the operation. -/
def compileMethod (spec : PyVal) (fuel : Nat) (command pathStr : String)
    (params : List URLParam) (defaultServers : List String) (m : String) (dataM : Dict) :
    Except String (Option (String × CLIOperation)) := do
  if pyTruthy (pyGet dataM "x-linode-cli-skip") then
    .ok Option.none
  else do
    let actionV := pyOr (pyGet dataM "x-linode-cli-action") (pyGet dataM "operationId")
    match actionV with
    | .none => .ok Option.none      -- warn: no operationId, skip
    | .list [] => .ok Option.none   -- warn: empty list for action, skip
    | av => do
      let (action, aliases) ←
        match av with
        | .list (a :: restA) => do
          let s ← asStrE a
          .ok (s, restA)
        | .str s => .ok (s, ([] : List PyVal))
        | _ => .error "TypeError: action must be a string or list"
      let summary := pyGetStrOr dataM "summary" ""
      let docsUrl ←
        match pyGet dataM "tags" with
        | .none => .ok PyVal.none
        | .list [] => .ok PyVal.none
        | .list (t0 :: _) =>
          if summary.data.isEmpty then
            .ok PyVal.none
          else do
            let t ← asStrE t0
            .ok (PyVal.str ("https://www.linode.com/docs/api/" ++ flattenUrlPath t
              ++ "/#" ++ flattenUrlPath summary))
        | _ => .error "TypeError: tags must be a list"
      let useServers ←
        match lookupA dataM "servers" with
        | some sv => do
          let xs ← pyElems sv
          serverUrls xs
        | Option.none => .ok defaultServers
      let (args, required, allowedDefaults) ← processRequestBody spec fuel m dataM
      let responses ←
        match lookupA dataM "responses" with
        | some rv => asDict rv
        | Option.none => .error "KeyError: responses"
      let respModel ←
        if containsA responses "200" then do
          let r200 ← asDict (pyGet responses "200")
          let content ←
            match lookupA r200 "content" with
            | some cv => asDict cv
            | Option.none => .error "KeyError: content"
          if containsA content "application/json" then do
            let aj ← asDict (pyGet content "application/json")
            let respCon0 ←
              match lookupA aj "schema" with
              | some sv => .ok sv
              | Option.none => .error "KeyError: schema"
            let respCon :=
              if containsA aj "x-linode-cli-use-schema" then
                pyGet aj "x-linode-cli-use-schema"
              else
                respCon0
            let rows := pyOr (pyGet aj "x-linode-cli-rows") .none
            let nested := pyOr (pyGet aj "x-linode-cli-nested-list") .none
            deriveResponseModel spec fuel respCon rows nested
          else
            .ok Option.none
        else
          .ok Option.none
      let cliArgs := buildCLIArgs args required
      let (useParams, usePath) := collisionPass params args pathStr
      .ok (some (action,
        { command := command
          action := action
          method := m
          url := usePath
          summary := summary
          args := cliArgs
          responseModel := respModel
          params := useParams
          servers := useServers
          docsUrl := docsUrl
          allowedDefaults := allowedDefaults
          actionAliases := aliases }))

/-- The HTTP methods the CLI compiles (cli.py line 21). -/
def METHODS : List String := ["get", "post", "put", "delete"]

/-- Embeds one iteration of the path loop of `CLI.bake` (cli.py lines
196-390): read the command name, extract the shared URL parameters, and
compile every present method, collecting `(action, operation)` pairs. -/
def compilePath (spec : PyVal) (fuel : Nat) (defaultServers : List String)
    (pathStr : String) (dataV : PyVal) :
    Except String (String × List (String × CLIOperation)) := do
  let data ← asDict dataV
  let command := pyGetStrOr data "x-linode-cli-command" "default"
  let params ← extractParams spec data
  let acts ←
    METHODS.foldlM
      (fun acc m =>
        if containsA data m then do
          let dataM ← asDict (pyGet data m)
          let res ← compileMethod spec fuel command pathStr params defaultServers m dataM
          match res with
          | some (action, op) => pure (setA acc action op)
          | Option.none => pure acc
        else
          pure acc)
      []
  .ok (command, acts)

/-- The persisted registry. Modelled from the spec (section 3, Registry):
the pickled ops dict, with the `_base_url` and `_spec_version` sentinel
entries (cli.py lines 402-403) as record fields. -/
structure Registry where
  ops : List (String × List (String × CLIOperation))
  baseUrl : String
  specVersion : String
deriving Inhabited

/-- Python `d[k]`: the value, or `KeyError`. -/
def keyOf (d : Dict) (k : String) : Except String PyVal :=
  match lookupA d k with
  | some v => .ok v
  | Option.none => .error ("KeyError: " ++ k)

/-- Embeds the registration of one compiled path into the two-level ops
dict (cli.py lines 199-201 and 377-390): the command entry is created on
demand and each action is assigned under it. -/
def addPath (spec : PyVal) (fuel : Nat) (ds : List String)
    (acc : List (String × List (String × CLIOperation))) (kv : String × PyVal) :
    Except String (List (String × List (String × CLIOperation))) := do
  let (command, acts) ← compilePath spec fuel ds kv.1 kv.2
  let cur := (lookupA acc command).getD []
  pure (setA acc command (acts.foldl (fun c av => setA c av.1 av.2) cur))

/-- Embeds the compilation phase of `CLI.bake` (cli.py lines 186-403,
everything before the artifact write): the default servers come from the
document `servers` list, every path is compiled in order into the
two-level ops dict, commands left with no actions are removed, and the
base URL and spec version are recorded. -/
def compileAll (spec : PyVal) (fuel : Nat) : Except String Registry := do
  let specD ← asDict spec
  let serversRaw ← keyOf specD "servers"
  let serversV ← pyElems serversRaw
  let defaultServers ← serverUrls serversV
  let pathsRaw ← keyOf specD "paths"
  let paths ← asDict pathsRaw
  let ops ← paths.foldlM (addPath spec fuel defaultServers) []
  let ops2 := ops.filter (fun kv => !kv.2.isEmpty)
  let baseUrl ←
    match defaultServers with
    | [] => .error "IndexError: servers is empty"
    | u :: _ => .ok u
  let infoRaw ← keyOf specD "info"
  let info ← asDict infoRaw
  let versionRaw ← keyOf info "version"
  let specVersion ← asStrE versionRaw
  .ok { ops := ops2, baseUrl := baseUrl, specVersion := specVersion }

/-- Embeds the effect of `CLI.bake` on the persisted artifact (cli.py
lines 405-408): the data file is opened and written only after the whole
compilation finished; a schema error raised earlier propagates out of
`bake` and leaves whatever artifact existed before untouched. -/
def bakeRun (spec : PyVal) (fuel : Nat) (artifact : Option Registry) :
    Option Registry × Option String :=
  match compileAll spec fuel with
  | .ok r => (some r, Option.none)
  | .error e => (artifact, some e)

/-! ## cli.py: dispatch and the Request Translator -/

/-- Embeds the operation resolution of `CLI.handle_command` (cli.py lines
728-751): an unknown command fails; the action is looked up among the
canonical actions of the command, then, failing that, the first operation
whose `action_aliases` contain it is taken; otherwise dispatch fails. -/
def findOperation (ops : List (String × List (String × CLIOperation)))
    (command action : String) : Except String CLIOperation :=
  match lookupA ops command with
  | Option.none => .error ("Command not found: " ++ command)
  | some acts =>
    match lookupA acts action with
    | some op => .ok op
    | Option.none =>
      match acts.find? (fun kv => memStr kv.2.actionAliases action) with
      | some kv => .ok kv.2
      | Option.none => .error ("No action " ++ action ++ " for command " ++ command)

/-- Embeds the operation resolution of `CLI.call_operation` (cli.py lines
781-786): `if command not in self.ops or action not in self.ops[command]`
raises `ValueError("Unknown command/action ...")`, otherwise the operation
is `self.ops[command][action]`. Only canonical action names are consulted;
`action_aliases` never are. -/
def callOperation (ops : List (String × List (String × CLIOperation)))
    (command action : String) : Except String CLIOperation :=
  match lookupA ops command with
  | Option.none => .error ("Unknown command/action " ++ command ++ "/" ++ action)
  | some acts =>
    match lookupA acts action with
    | some op => .ok op
    | Option.none =>
      .error ("Unknown command/action " ++ command ++ "/" ++ action)

/-- Embeds one dotted-path insertion of the body-expansion loop of
`CLI.do_request` (cli.py lines 601-607): walk the split path, creating
intermediate dicts for absent segments, and assign the value at the final
segment; descending into an existing non-dict value raises in Python and
yields `none` here. -/
def insertSeg : Dict → List String → PyVal → Option Dict
  | d, [k], v => some (setA d k v)
  | d, k :: rest₁ :: rest₂, v =>
    (match lookupA d k with
     | Option.none => (insertSeg [] (rest₁ :: rest₂) v).map (fun m => setA d k (.dict m))
     | some (.dict m) => (insertSeg m (rest₁ :: rest₂) v).map (fun m2 => setA d k (.dict m2))
     | some _ => Option.none)
  | _, [], _ => Option.none

/-- Embeds the body-expansion loop of `CLI.do_request` (cli.py lines
599-607): each flat entry is split on `.` and inserted into the nested
body under construction. -/
def expandPaths : List (String × PyVal) → Dict → Option Dict
  | [], acc => some acc
  | (k, v) :: rest, acc => (insertSeg acc (pySplitDot k) v).bind (expandPaths rest)

/-- Embeds the non-get body construction of `CLI.do_request` (cli.py lines
591-609): keep every parsed entry whose value is not `None` and expand the
dotted paths into a nested body.  The default-overlay step (cli.py lines
592-595) delegates to the external configuration collaborator and is taken
here with defaults disabled, leaving the parsed arguments unchanged. -/
def buildBody (parsed : List (String × PyVal)) : Option Dict :=
  expandPaths (parsed.filter (fun kv => !kv.2.isNone)) []

/-- Embeds the filter-header construction of `CLI.do_request` (cli.py
lines 580-587, the get branch with no explicit override): drop every entry
named like a URL parameter, then drop empty (None) values. -/
def buildFilters (parsed : List (String × PyVal)) (params : List URLParam) : Dict :=
  (params.foldl
      (fun acc p => if containsA acc p.name then removeA acc p.name else acc)
      parsed).filter
    (fun kv => !kv.2.isNone)

/-- Python `str(v)` as used when a value is substituted into a URL
template; containers never appear as URL parameter values. -/
def pyStr : PyVal → String
  | .str s => s
  | .int n => toString n
  | .bool b => if b then "True" else "False"
  | .none => "None"
  | .list _ => "[...]"
  | .dict _ => "\x7b...\x7d"

/-- Scanner for `str.format`: outside a placeholder, a `{` opens one and a
bare `}` is an error; inside one, chars accumulate until `}` closes it and
the named value is substituted (a missing name raises `KeyError`). -/
def formatUrlAux (vars : List (String × PyVal)) :
    List Char → Option (List Char) → Except String (List Char)
  | [], Option.none => .ok []
  | [], some _ => .error "ValueError: unmatched brace"
  | c :: rest, Option.none =>
    if c = '{' then
      formatUrlAux vars rest (some [])
    else if c = '}' then
      .error "ValueError: single closing brace"
    else do
      let t ← formatUrlAux vars rest Option.none
      .ok (c :: t)
  | c :: rest, some acc =>
    if c = '}' then
      match lookupA vars (String.mk acc.reverse) with
      | some v => do
        let t ← formatUrlAux vars rest Option.none
        .ok ((pyStr v).data ++ t)
      | Option.none => .error ("KeyError: " ++ String.mk acc.reverse)
    else
      formatUrlAux vars rest (some (c :: acc))

/-- Embeds `operation.url.format(**vars(parsed_args))` (cli.py line 569):
substitute every `{name}` placeholder with the parsed value of `name`. -/
def formatUrl (tpl : String) (vars : List (String × PyVal)) : Except String String :=
  (formatUrlAux vars tpl.data Option.none).map String.mk

/-! ## Specification-side model for the flatten/unflatten round trip

The round-trip law of the specification quantifies over request-body
schemas.  `SSchema` is the shape skeleton of a resolved schema (writable
leaves, read-only leaves, nested objects); `Models` relates a skeleton to
a concrete `properties` dict as consumed by `_parse_args`; `relArgs` lists
the dotted paths (as segment lists) the flattener emits; `buildShape`
rebuilds the nested JSON shape of the schema, read-only leaves excluded,
from a valuation of the flat paths. -/

/-- The shape skeleton of a resolved request schema node. -/
inductive SSchema where
  | leaf (ro : Bool)
  | obj (props : List (String × SSchema))

/-- The relative dotted paths (as segment lists) emitted by flattening:
writable leaves yield their own name, read-only leaves vanish, object
properties recurse with the name prepended. -/
def relArgs : List (String × SSchema) → List (List String)
  | [] => []
  | (name, .leaf ro) :: rest =>
    (if ro then [] else [[name]]) ++ relArgs rest
  | (name, .obj props) :: rest =>
    (relArgs props).map (fun p => name :: p) ++ relArgs rest

/-- Shift a valuation one object level down. -/
def shiftV (name : String) (v : List String → PyVal) : List String → PyVal :=
  fun p => v (name :: p)

/-- The nested JSON shape of a schema under a valuation of its flat paths:
read-only leaves are absent, writable leaves hold their flat value, object
properties nest. -/
def buildShape (v : List String → PyVal) : List (String × SSchema) → Dict
  | [] => []
  | (name, .leaf ro) :: rest =>
    (if ro then [] else [(name, v [name])]) ++ buildShape v rest
  | (name, .obj props) :: rest =>
    (name, PyVal.dict (buildShape (shiftV name v) props)) :: buildShape v rest

/-- The fully populated flat argument set, in flattening order. -/
def flatPairs (v : List String → PyVal) (S : List (String × SSchema)) :
    List (List String × PyVal) :=
  (relArgs S).map (fun p => (p, v p))

/-- Folding the per-entry insertion of the body-expansion loop over a list
of already-split paths. -/
def foldInsert : Dict → List (List String × PyVal) → Option Dict
  | acc, [] => some acc
  | acc, (p, val) :: rest => (insertSeg acc p val).bind (fun acc2 => foldInsert acc2 rest)

/-- Safety of the array branch of `_parse_args` for a leaf that is not
descended into: if the node is a non-json array with items, the items
resolve to a dict carrying a `type` and do not trigger the
array-of-objects expansion. -/
def ArrayOk (d : Dict) : Prop :=
  getFmt d = some "json" ∨
    (¬(pyGetStrOr d "type" "string" = "array" ∧ containsA d "items" = true)) ∨
    (∃ di t, pyGet d "items" = .dict di ∧
      lookupA di "allOf" = Option.none ∧
      lookupA di "$ref" = Option.none ∧
      lookupA di "type" = some (.str t) ∧
      ¬(t = "object" ∧ containsA di "properties" = true ∧ pyTruthy (pyGet di "readOnly") = false))

/-- `Models S props` relates a shape skeleton to a concrete `properties`
dict: every member is a dict free of `allOf` and `$ref`, keys are unique
and dot-free, leaves match the read-only flag and keep the flattener out
of the array-of-objects branch, objects carry a nested modelled
`properties` dict that flattens to at least one argument. -/
inductive Models : List (String × SSchema) → Dict → Prop
  | nil : Models [] []
  | leaf (name : String) (d : Dict) (ro : Bool) (Srest : List (String × SSchema)) (rest : Dict) :
      lookupA d "allOf" = Option.none →
      lookupA d "$ref" = Option.none →
      lookupA d "properties" = Option.none →
      ro = pyTruthy (pyGet d "readOnly") →
      (ro = false → ArrayOk d) →
      dotFree name →
      name ∉ keysA rest →
      Models Srest rest →
      Models ((name, .leaf ro) :: Srest) ((name, .dict d) :: rest)
  | obj (name : String) (d props2 : Dict) (S2 Srest : List (String × SSchema)) (rest : Dict) :
      lookupA d "allOf" = Option.none →
      lookupA d "$ref" = Option.none →
      lookupA d "properties" = some (.dict props2) →
      Models S2 props2 →
      relArgs S2 ≠ [] →
      dotFree name →
      name ∉ keysA rest →
      Models Srest rest →
      Models ((name, .obj S2) :: Srest) ((name, .dict d) :: rest)

/-- Skeleton names, in order. -/
def sNames (S : List (String × SSchema)) : List String :=
  S.map (fun kv => kv.1)

/-- Well-formedness of a shape skeleton on its own: unique names per level
and every object productive (flattens to at least one path). -/
inductive SWf : List (String × SSchema) → Prop
  | nil : SWf []
  | leaf (name : String) (ro : Bool) (rest : List (String × SSchema)) :
      name ∉ sNames rest → SWf rest → SWf ((name, .leaf ro) :: rest)
  | obj (name : String) (props rest : List (String × SSchema)) :
      name ∉ sNames rest → relArgs props ≠ [] → SWf props → SWf rest →
      SWf ((name, .obj props) :: rest)

/-- The description truncation stated by the specification: the prefix of
the description up to (but not including) the first `.`, with a single `.`
appended. -/
def specTruncDesc (s : String) : String :=
  String.mk (s.data.takeWhile (fun c => c ≠ '.')) ++ "."

/-! ## Concrete example documents used in the theorems below -/

/-- The request schema of the array-of-objects scenario:
`{"disks": {"type": "array", "items": {"type": "object", "properties":
{"label": {"type": "string"}, "size": {"type": "integer"}}}}}`. -/
def disksSchema : Dict :=
  [("disks", .dict
    [("type", .str "array"),
     ("items", .dict
       [("type", .str "object"),
        ("properties", .dict
          [("label", .dict [("type", .str "string")]),
           ("size", .dict [("type", .str "integer")])])])])]

/-- A path item whose URL parameter `region` collides with the dotted-path
root of the body argument `region.id` (the body property `region` is an
object, so only its leaf becomes an argument). -/
def regionRootPathItem : PyVal :=
  .dict
    [("parameters", .list
       [.dict [("name", .str "region"), ("schema", .dict [("type", .str "string")])]]),
     ("put", .dict
       [("operationId", .str "thingUpdate"),
        ("requestBody", .dict
          [("content", .dict
            [("application/json", .dict
              [("schema", .dict
                [("properties", .dict
                  [("region", .dict
                    [("type", .str "object"),
                     ("properties", .dict
                       [("id", .dict [("type", .str "string")])])])])])])])]),
        ("responses", .dict [])])]

/-- A path item whose URL parameter `region` collides with the full dotted
path of the top-level body argument `region`. -/
def regionExactPathItem : PyVal :=
  .dict
    [("parameters", .list
       [.dict [("name", .str "region"), ("schema", .dict [("type", .str "string")])]]),
     ("put", .dict
       [("operationId", .str "thingUpdate"),
        ("requestBody", .dict
          [("content", .dict
            [("application/json", .dict
              [("schema", .dict
                [("properties", .dict
                  [("region", .dict [("type", .str "string")])])])])])]),
        ("responses", .dict [])])]

/-- The parsed flat argument set of the URL-parameter scenario:
`{"region": "us-east", "label": "x"}`. -/
def regionParsed : List (String × PyVal) :=
  [("region", .str "us-east"), ("label", .str "x")]

/-- A body schema with a nested object and a schema-level `required` list
naming the nested leaf by its leaf name. -/
def nestedRequiredSchema : PyVal :=
  .dict
    [("properties", .dict
       [("a", .dict
         [("type", .str "object"),
          ("properties", .dict [("b", .dict [("type", .str "string")])])])]),
     ("required", .list [.str "b"])]

/-- The properties map of `flatRequiredSchema`. -/
def flatRequiredProps : Dict :=
  [("label", .dict
     [("type", .str "string"),
      ("description", .str "Label of the thing. Must be unique.")])]

/-- The entries of `flatRequiredSchema`. -/
def flatRequiredDict : Dict :=
  [("properties", .dict flatRequiredProps), ("required", .list [.str "label"])]

/-- A flat body schema whose `required` list names its single property by
its full (top-level) path. -/
def flatRequiredSchema : PyVal :=
  .dict flatRequiredDict

/-- First allOf member of the last-write-wins scenario. -/
def allOfMember1 : Dict :=
  [("properties", .dict [("x", .str "A"), ("y", .str "B")])]

/-- Second allOf member of the last-write-wins scenario. -/
def allOfMember2 : Dict :=
  [("properties", .dict [("x", .str "C")])]

/-- The row schema of the pagination-envelope scenario, with properties
`id` and `status`. -/
def rowSchemaEx : Dict :=
  [("type", .str "object"),
   ("properties", .dict
     [("id", .dict [("type", .str "integer")]),
      ("status", .dict [("type", .str "string")])])]

/-- The pagination envelope around `rowSchemaEx`: `pages` and `page`
counters alongside `data`, an array of the row schema. -/
def envSchemaEx : Dict :=
  [("type", .str "object"),
   ("properties", .dict
     [("pages", .dict [("type", .str "integer")]),
      ("page", .dict [("type", .str "integer")]),
      ("data", .dict [("type", .str "array"), ("items", .dict rowSchemaEx)])])]

/-- A path item whose `parameters` block carries a `$ref` to an absent
component. -/
def brokenPathItem : PyVal :=
  .dict
    [("parameters", .list
       [.dict [("$ref", .str "#/components/parameters/missing")]]),
     ("get", .dict
       [("operationId", .str "brokenList"), ("responses", .dict [])])]

/-- The entries of `brokenRefSpec`. -/
def brokenSpecDict : Dict :=
  [("servers", .list [.dict [("url", .str "https://api.linode.com/v4")]]),
   ("info", .dict [("version", .str "4.0.0")]),
   ("paths", .dict [("/broken/\x7bid\x7d", brokenPathItem)])]

/-- A document whose single path carries a `$ref` to an absent component,
so compiling that path fails with a schema error. -/
def brokenRefSpec : PyVal :=
  .dict brokenSpecDict

/-- A previously persisted registry artifact. -/
def oldRegistry : Registry :=
  { ops := [], baseUrl := "old", specVersion := "0" }

/-- A minimal compiled operation for the dispatch scenario. -/
def opList : CLIOperation :=
  { command := "linodes", action := "list", method := "get",
    url := "/linode/instances", summary := "", args := [],
    responseModel := Option.none, params := [], servers := [],
    actionAliases := [.str "ls", .str "all"] }

/-- A second compiled operation under the same command, without aliases. -/
def opView : CLIOperation :=
  { command := "linodes", action := "view", method := "get",
    url := "/linode/instances/\x7blinodeId\x7d", summary := "", args := [],
    responseModel := Option.none, params := [], servers := [] }

/-- The registry ops table of the dispatch scenario. -/
def opsEx : List (String × List (String × CLIOperation)) :=
  [("linodes", [("list", opList), ("view", opView)])]

/-- The resolved properties dict of the round-trip witness schema: an
object `region` with leaf `id`, and a leaf `label`. -/
def roundTripProps : Dict :=
  [("region", .dict
     [("type", .str "object"),
      ("properties", .dict [("id", .dict [("type", .str "string")])])]),
   ("label", .dict [("type", .str "string")])]

/-- The shape skeleton of `roundTripProps`. -/
def roundTripShape : List (String × SSchema) :=
  [("region", .obj [("id", .leaf false)]), ("label", .leaf false)]

/-! ## Association-list lemmas -/

theorem lookupA_eq_none {α : Type} (d : List (String × α)) (k : String) :
    lookupA d k = Option.none ↔ k ∉ keysA d := by
  induction d with
  | nil => simp [lookupA, keysA]
  | cons kv rest ih =>
    obtain ⟨a, v⟩ := kv
    by_cases h : a = k
    · subst h; simp [lookupA, keysA]
    · have h2 : ¬ k = a := fun he => h he.symm
      simp only [lookupA, if_neg h, keysA, List.map_cons, List.mem_cons, not_or, ih]
      exact ⟨fun hnk => ⟨h2, hnk⟩, fun hp => hp.2⟩

theorem lookupA_of_mem {α : Type} {d : List (String × α)} {k : String} {v : α}
    (hnd : (keysA d).Nodup) (hmem : (k, v) ∈ d) : lookupA d k = some v := by
  induction d with
  | nil => simp at hmem
  | cons kv rest ih =>
    obtain ⟨a, w⟩ := kv
    simp only [keysA, List.map_cons, List.nodup_cons] at hnd
    rcases List.mem_cons.mp hmem with h | h
    · have h1 : k = a := congrArg Prod.fst h
      have h2 : v = w := congrArg Prod.snd h
      subst h1; subst h2
      simp [lookupA]
    · have hk : k ∈ keysA rest := List.mem_map.mpr ⟨(k, v), h, rfl⟩
      have hne : a ≠ k := fun he => hnd.1 (he ▸ hk)
      simp [lookupA, hne, ih hnd.2 h]

theorem setA_of_not_mem {α : Type} {d : List (String × α)} {k : String} (v : α)
    (h : lookupA d k = Option.none) : setA d k v = d ++ [(k, v)] := by
  induction d with
  | nil => rfl
  | cons kv rest ih =>
    obtain ⟨a, w⟩ := kv
    by_cases ha : a = k
    · subst ha; simp [lookupA] at h
    · simp only [lookupA, if_neg ha] at h
      simp [setA, ha, ih h]

theorem lookupA_append {α : Type} (d e : List (String × α)) (k : String) :
    lookupA (d ++ e) k = (lookupA d k).orElse (fun _ => lookupA e k) := by
  induction d with
  | nil => simp [lookupA]
  | cons kv rest ih =>
    obtain ⟨a, w⟩ := kv
    by_cases ha : a = k
    · subst ha; simp [lookupA]
    · simp [lookupA, ha, ih]

theorem lookupA_setA_self {α : Type} (d : List (String × α)) (k : String) (v : α) :
    lookupA (setA d k v) k = some v := by
  induction d with
  | nil => simp [setA, lookupA]
  | cons kv rest ih =>
    obtain ⟨a, w⟩ := kv
    by_cases ha : a = k
    · subst ha; simp [setA, lookupA]
    · simp [setA, ha, lookupA, ih]

theorem lookupA_setA_ne {α : Type} (d : List (String × α)) {k k' : String} (v : α)
    (h : k' ≠ k) : lookupA (setA d k v) k' = lookupA d k' := by
  have h2 : ¬ k = k' := fun he => h he.symm
  induction d with
  | nil => simp [setA, lookupA, h2]
  | cons kv rest ih =>
    obtain ⟨a, w⟩ := kv
    by_cases ha : a = k
    · subst ha; simp [setA, lookupA, h2]
    · by_cases ha' : a = k'
      · subst ha'; simp [setA, ha, lookupA]
      · simp [setA, ha, lookupA, ha', ih]

theorem setA_setA_same {α : Type} (d : List (String × α)) (k : String) (v w : α) :
    setA (setA d k v) k w = setA d k w := by
  induction d with
  | nil => simp [setA]
  | cons kv rest ih =>
    obtain ⟨a, u⟩ := kv
    by_cases ha : a = k
    · subst ha; simp [setA]
    · simp [setA, ha, ih]

theorem setA_of_lookup_self {α : Type} {d : List (String × α)} {k : String} {v : α}
    (h : lookupA d k = some v) : setA d k v = d := by
  induction d with
  | nil => simp [lookupA] at h
  | cons kv rest ih =>
    obtain ⟨a, u⟩ := kv
    by_cases ha : a = k
    · subst ha
      have h2 : u = v := by simpa [lookupA] using h
      simp [setA, h2]
    · simp only [lookupA, if_neg ha] at h
      simp [setA, ha, ih h]

theorem lookupA_updateA {α : Type} (d e : List (String × α)) (k : String)
    (hnd : (keysA e).Nodup) :
    lookupA (updateA d e) k = (lookupA e k).orElse (fun _ => lookupA d k) := by
  induction e generalizing d with
  | nil => simp [updateA, lookupA]
  | cons kv rest ih =>
    obtain ⟨a, v⟩ := kv
    simp only [keysA, List.map_cons, List.nodup_cons] at hnd
    have step : updateA d ((a, v) :: rest) = updateA (setA d a v) rest := rfl
    rw [step, ih _ hnd.2]
    by_cases ha : a = k
    · subst ha
      have hr : lookupA rest a = Option.none := by
        rw [lookupA_eq_none]
        intro hmem
        exact hnd.1 hmem
      simp [lookupA, hr, lookupA_setA_self]
    · simp [lookupA, ha, lookupA_setA_ne d v (fun he => ha he.symm)]

theorem lookupA_removeA_self {α : Type} (d : List (String × α)) (k : String) :
    lookupA (removeA d k) k = Option.none := by
  induction d with
  | nil => rfl
  | cons kv rest ih =>
    obtain ⟨a, v⟩ := kv
    by_cases ha : a = k
    · subst ha; simpa [removeA, List.filter] using ih
    · simpa [removeA, List.filter, ha, lookupA] using ih

theorem lookupA_filter_none {α : Type} {d : List (String × α)} {k : String}
    (f : String × α → Bool) (h : lookupA d k = Option.none) :
    lookupA (d.filter f) k = Option.none := by
  induction d with
  | nil => rfl
  | cons kv rest ih =>
    obtain ⟨a, v⟩ := kv
    by_cases ha : a = k
    · subst ha; simp [lookupA] at h
    · simp only [lookupA, if_neg ha] at h
      by_cases hf : f (a, v)
      · simp [List.filter, hf, lookupA, ha, ih h]
      · simp [List.filter, hf, ih h]

/-! ## String split / join lemmas -/

theorem splitCharsAux_ne_nil (sep : Char) (l : List Char) : splitCharsAux sep l ≠ [] := by
  cases l with
  | nil => simp [splitCharsAux]
  | cons c rest =>
    by_cases hc : c = sep
    · simp [splitCharsAux, hc]
    · simp only [splitCharsAux, if_neg hc]
      cases splitCharsAux sep rest <;> simp

theorem splitCharsAux_dot_head (l : List Char) :
    ∃ t, splitCharsAux '.' l = (l.takeWhile (fun c => c ≠ '.')) :: t := by
  induction l with
  | nil => exact ⟨[], rfl⟩
  | cons c rest ih =>
    by_cases hc : c = '.'
    · subst hc
      refine ⟨splitCharsAux '.' rest, ?_⟩
      simp [splitCharsAux, List.takeWhile_cons]
    · obtain ⟨t, ht⟩ := ih
      refine ⟨t, ?_⟩
      simp [splitCharsAux, hc, ht, List.takeWhile_cons]

theorem pySplitDot_headD (s : String) :
    (pySplitDot s).headD "" = String.mk (s.data.takeWhile (fun c => c ≠ '.')) := by
  obtain ⟨t, ht⟩ := splitCharsAux_dot_head s.data
  simp [pySplitDot, pySplitChar, ht]

theorem splitCharsAux_of_not_mem {l : List Char} (h : '.' ∉ l) :
    splitCharsAux '.' l = [l] := by
  induction l with
  | nil => rfl
  | cons c rest ih =>
    simp only [List.mem_cons, not_or] at h
    have hc : ¬ c = '.' := fun he => h.1 he.symm
    have hr := ih h.2
    simp [splitCharsAux, hc, hr]

theorem splitCharsAux_append {l m : List Char} (h : '.' ∉ l) :
    splitCharsAux '.' (l ++ '.' :: m) = l :: splitCharsAux '.' m := by
  induction l with
  | nil => simp [splitCharsAux]
  | cons c rest ih =>
    simp only [List.mem_cons, not_or] at h
    have hc : ¬ c = '.' := fun he => h.1 he.symm
    simp [splitCharsAux, hc, ih h.2]

theorem split_join (parts : List String) (hne : parts ≠ [])
    (hdf : ∀ p ∈ parts, dotFree p) : pySplitDot (pyJoinDot parts) = parts := by
  induction parts with
  | nil => exact absurd rfl hne
  | cons p rest ih =>
    cases rest with
    | nil =>
      have hdp : '.' ∉ p.data := hdf p (by simp)
      simp [pySplitDot, pySplitChar, pyJoinDot, joinCharsDot,
        splitCharsAux_of_not_mem hdp]
    | cons q rest2 =>
      have hdp : '.' ∉ p.data := hdf p (by simp)
      have hjoin : pyJoinDot (p :: q :: rest2) =
          String.mk (p.data ++ '.' :: joinCharsDot ((q :: rest2).map String.data)) := by
        simp [pyJoinDot, joinCharsDot]
      have ihr := ih (by simp) (fun x hx => hdf x (List.mem_cons_of_mem _ hx))
      simp only [pySplitDot, pySplitChar] at ihr ⊢
      rw [hjoin]
      show ((splitCharsAux '.' (p.data ++ '.' :: joinCharsDot ((q :: rest2).map String.data))).map
        (fun l => String.mk l)) = _
      rw [splitCharsAux_append hdp]
      simp only [List.map_cons]
      refine congrArg₂ (· :: ·) rfl ?_
      have hdata : (pyJoinDot (q :: rest2)).data =
          joinCharsDot (q.data :: List.map String.data rest2) := rfl
      rw [← hdata]
      exact ihr

/-- Joining is injective on nonempty lists of dot-free segments. -/
theorem join_inj {xs ys : List String} (hx : xs ≠ []) (hy : ys ≠ [])
    (hdx : ∀ p ∈ xs, dotFree p) (hdy : ∀ p ∈ ys, dotFree p)
    (h : pyJoinDot xs = pyJoinDot ys) : xs = ys := by
  have := split_join xs hx hdx
  rw [h, split_join ys hy hdy] at this
  exact this.symm

/-! ## Small lemmas about membership helpers -/

theorem memStr_append (xs ys : List PyVal) (s : String) :
    memStr (xs ++ ys) s = (memStr xs s || memStr ys s) := by
  simp [memStr, List.any_append]

theorem foldRemove_preserves_none (params : List URLParam)
    (d : List (String × PyVal)) (k : String) (h : lookupA d k = Option.none) :
    lookupA
      (params.foldl (fun acc p => if containsA acc p.name then removeA acc p.name else acc) d)
      k = Option.none := by
  induction params generalizing d with
  | nil => exact h
  | cons q rest ih =>
    simp only [List.foldl_cons]
    apply ih
    by_cases hc : containsA d q.name
    · simp only [if_pos hc]
      exact lookupA_filter_none _ h
    · simp only [if_neg hc]
      exact h

theorem foldRemove_removes (params : List URLParam) (d : List (String × PyVal))
    (p : URLParam) (hp : p ∈ params) :
    lookupA
      (params.foldl (fun acc q => if containsA acc q.name then removeA acc q.name else acc) d)
      p.name = Option.none := by
  induction params generalizing d with
  | nil => simp at hp
  | cons q rest ih =>
    simp only [List.foldl_cons]
    rcases List.mem_cons.mp hp with he | hm
    · subst he
      apply foldRemove_preserves_none
      by_cases hc : containsA d p.name
      · simp only [if_pos hc]
        exact lookupA_removeA_self _ _
      · simp only [if_neg hc]
        simpa [containsA, Option.isSome_iff_ne_none, Classical.not_not] using hc
    · exact ih _ hm

theorem ok_bind {α β : Type} (a : α) (f : α → Except String β) :
    (Except.ok a >>= f) = f a := rfl

theorem error_bind {α β : Type} (e : String) (f : α → Except String β) :
    ((Except.error e : Except String α) >>= f) = Except.error e := rfl

theorem foldlM_isOk_false {α β : Type} (l : List α) (f : β → α → Except String β)
    (x : α) (hx : x ∈ l) (hf : ∀ b, (f b x).isOk = false) :
    ∀ acc, (l.foldlM f acc).isOk = false := by
  induction l with
  | nil => simp at hx
  | cons y rest ih =>
    intro acc
    rw [List.foldlM_cons]
    rcases List.mem_cons.mp hx with he | hm
    · subst he
      cases hfy : f acc x with
      | error e => simp [Bind.bind, Except.bind, hfy, Except.isOk, Except.toBool]
      | ok b =>
        have := hf acc
        rw [hfy] at this
        simp [Except.isOk, Except.toBool] at this
    · cases hfy : f acc y with
      | error e => simp [Bind.bind, Except.bind, hfy, Except.isOk, Except.toBool]
      | ok b =>
        simp only [Bind.bind, Except.bind, hfy]
        exact ih hm b

/-! ## Claim theorems -/

/-- C7: flattening the request schema `disks: array of objects with
properties label and size` yields exactly two arguments, at dotted paths
`disks.label` and `disks.size`, each tagged `list_item == "disks"`, and no
argument at path `disks` itself. -/
theorem c7_disks_flattening :
    (parseArgs (.dict []) 10 disksSchema [] []).map
        (fun l => l.map (fun kv => (kv.1, kv.2.listItem))) =
      .ok [("disks.label", some "disks"), ("disks.size", some "disks")] ∧
    (parseArgs (.dict []) 10 disksSchema [] []).map
        (fun l => (l.map (fun kv => kv.1)).contains "disks") = .ok false :=
  ⟨rfl, rfl⟩

/-- C10: the description stored on every compiled argument is the source
schema description truncated at its first `.` with a single `.` appended;
a multi-sentence description keeps only its first sentence and an empty
description becomes the one-character string `"."`. -/
theorem c10_description_truncation :
    (∀ (args : ArgsMap) (req : List PyVal),
        (buildCLIArgs args req).map (fun a => a.description) =
          args.map (fun kv => specTruncDesc kv.2.desc)) ∧
    specTruncDesc "" = "." ∧
    (processBodySchema (.dict []) 10 flatRequiredSchema).map
        (fun p => (buildCLIArgs p.1 p.2).map (fun a => a.description)) =
      .ok ["Label of the thing."] := by
  refine ⟨?_, rfl, rfl⟩
  intro args req
  induction args with
  | nil => rfl
  | cons kv rest ih =>
    simp only [buildCLIArgs, List.map_cons, List.map_map] at ih ⊢
    refine congrArg₂ (· :: ·) ?_ ih
    show (pySplitDot kv.2.desc).headD "" ++ "." = specTruncDesc kv.2.desc
    rw [pySplitDot_headD]
    rfl

/-- C5: resolving an `allOf` whose members are (after reference
resolution) objects with property maps merges the property maps left to
right; on a shared property name the later member's definition is the one
present in the result. -/
theorem c5_allOf_last_write_wins (spec : PyVal) (d1 d2 p1 p2 : Dict)
    (h1r : lookupA d1 "$ref" = Option.none)
    (h1p : lookupA d1 "properties" = some (.dict p1))
    (h2r : lookupA d2 "$ref" = Option.none)
    (h2p : lookupA d2 "properties" = some (.dict p2))
    (hnd1 : (keysA p1).Nodup) (hnd2 : (keysA p2).Nodup) :
    ∃ merged, resolveAllOf spec [.dict d1, .dict d2] = .ok merged ∧
      ∀ k, lookupA merged k = (lookupA p2 k).orElse (fun _ => lookupA p1 k) := by
  have hc1 : containsA d1 "properties" = true := by simp [containsA, h1p]
  have hc2 : containsA d2 "properties" = true := by simp [containsA, h2p]
  have hpg1 : pyGet d1 "properties" = .dict p1 := by simp [pyGet, h1p]
  have hpg2 : pyGet d2 "properties" = .dict p2 := by simp [pyGet, h2p]
  refine ⟨updateA (updateA [] p1) p2, ?_, ?_⟩
  · simp [resolveAllOf, resolveAllOfAux, h1r, h2r, hc1, hc2, hpg1, hpg2, asDict,
      Bind.bind, Except.bind]
  · intro k
    rw [lookupA_updateA _ _ _ hnd2, lookupA_updateA _ _ _ hnd1]
    cases lookupA p2 k <;> cases lookupA p1 k <;> simp [lookupA, Option.orElse]

/-- Witness for C5 at concrete members with the overlapping property
`x`. -/
theorem c5_witness :
    ∃ merged, resolveAllOf (.dict []) [.dict allOfMember1, .dict allOfMember2] = .ok merged ∧
      ∀ k, lookupA merged k =
        (lookupA [("x", PyVal.str "C")] k).orElse
          (fun _ => lookupA [("x", PyVal.str "A"), ("y", PyVal.str "B")] k) :=
  c5_allOf_last_write_wins (.dict []) allOfMember1 allOfMember2
    [("x", PyVal.str "A"), ("y", PyVal.str "B")] [("x", PyVal.str "C")]
    rfl rfl rfl rfl (by decide) (by decide)

/-- C3 is false on the code: the non-get body construction keeps every
non-None parsed entry, so the URL-parameter value `region` appears in the
JSON body (the claimed body `{"label": "x"}` is not produced), even though
it is also substituted into the URL. -/
theorem c3_counterexample :
    buildBody regionParsed = some [("region", .str "us-east"), ("label", .str "x")] ∧
    (lookupA ((buildBody regionParsed).getD []) "region").isSome = true ∧
    buildBody regionParsed ≠ some [("label", PyVal.str "x")] ∧
    formatUrl "/things/\x7bregion\x7d" regionParsed = .ok "/things/us-east" := by
  refine ⟨rfl, rfl, ?_, rfl⟩
  intro h
  have h2 : (2 : Nat) = 1 := congrArg (fun o => (o.getD ([] : Dict)).length) h
  exact absurd h2 (by decide)

/-- C3 amended: URL-parameter entries are dropped only by the get-branch
filter construction; the non-get body construction keeps every non-None
entry, so a URL-parameter value is both substituted into the URL and kept
in the JSON body. -/
theorem c3_amended :
    (∀ (parsed : List (String × PyVal)) (params : List URLParam) (p : URLParam),
        p ∈ params → lookupA (buildFilters parsed params) p.name = Option.none) ∧
    buildBody regionParsed = some [("region", .str "us-east"), ("label", .str "x")] ∧
    buildFilters regionParsed [⟨"region", "string"⟩] = [("label", .str "x")] ∧
    formatUrl "/things/\x7bregion\x7d" regionParsed = .ok "/things/us-east" := by
  refine ⟨?_, rfl, rfl, rfl⟩
  intro parsed params p hp
  unfold buildFilters
  exact lookupA_filter_none _ (foldRemove_removes params parsed p hp)

/-- Witness for the universally quantified part of the amended C3. -/
theorem c3_amended_witness :
    lookupA (buildFilters regionParsed [⟨"region", "string"⟩]) "region" = Option.none :=
  c3_amended.1 regionParsed [⟨"region", "string"⟩] ⟨"region", "string"⟩
    (List.mem_singleton.mpr rfl)

/-- C2 is false on the code: the collision pass compares a URL-parameter
name against the full dotted-path keys of the args dict, not against
dotted-path roots; compiling an operation whose parameter `region`
collides only with the root of the argument `region.id` leaves both the
parameter and the `{region}` placeholder unrenamed, so a placeholder equal
to an argument dotted-path root survives compilation. -/
theorem c2_counterexample :
    (compilePath (.dict []) 10 ["s"] "/things/\x7bregion\x7d" regionRootPathItem).map
        (fun r => (r.1, r.2.map (fun kv => (kv.1, kv.2.url,
          kv.2.params.map (fun p => p.name), kv.2.args.map (fun a => a.path))))) =
      .ok ("default", [("thingUpdate", ("/things/\x7bregion\x7d", ["region"], ["region.id"]))]) ∧
    (pySplitDot "region.id").headD "" = "region" :=
  ⟨rfl, rfl⟩

/-- C2 amended: a URL parameter is renamed (underscore suffixed) exactly
when its name equals a full argument dotted path (a key of the args
dict); when that happens the path placeholder is rewritten to the same
suffixed name, as the compiled exact-collision operation shows; a name
equal only to a dotted-path root is left alone. -/
theorem c2_amended :
    (∀ (params : List URLParam) (args : ArgsMap) (path : String),
        (collisionPass params args path).1 =
          params.map (fun p =>
            if containsA args p.name then ⟨p.name ++ "_", p.paramType⟩ else p)) ∧
    (compilePath (.dict []) 10 ["s"] "/things/\x7bregion\x7d" regionExactPathItem).map
        (fun r => (r.1, r.2.map (fun kv => (kv.1, kv.2.url,
          kv.2.params.map (fun p => p.name), kv.2.args.map (fun a => a.path))))) =
      .ok ("default", [("thingUpdate", ("/things/\x7bregion_\x7d", ["region_"], ["region"]))]) := by
  refine ⟨?_, rfl⟩
  intro params args path
  unfold collisionPass
  suffices h : ∀ (acc : List URLParam) (cur : String),
      (params.foldl
        (fun st p =>
          if containsA args p.name then
            (st.1 ++ [⟨p.name ++ "_", p.paramType⟩],
             pyReplace st.2 ("\x7b" ++ p.name ++ "\x7d") ("\x7b" ++ p.name ++ "_\x7d"))
          else
            (st.1 ++ [p], st.2))
        (acc, cur)).1 =
        acc ++ params.map (fun p =>
          if containsA args p.name then ⟨p.name ++ "_", p.paramType⟩ else p) by
    simpa using h [] path
  induction params with
  | nil => intro acc cur; simp
  | cons q rest ih =>
    intro acc cur
    simp only [List.foldl_cons, List.map_cons]
    by_cases hc : containsA args q.name
    · simp only [if_pos hc]
      rw [ih]
      simp
    · simp only [if_neg hc]
      rw [ih]
      simp

/-- C4 is false on the code: the required flag is set by membership of the
full dotted path in the gathered required lists, not of the leaf name;
the argument at `a.b` stays optional even though its leaf name `b` is in
the schema required list. -/
theorem c4_counterexample :
    (processBodySchema (.dict []) 10 nestedRequiredSchema).map
        (fun p => (buildCLIArgs p.1 p.2).map (fun a => (a.path, a.required))) =
      .ok [("a.b", false)] ∧
    memStr [.str "b"] ((pySplitDot "a.b").getLastD "") = true :=
  ⟨rfl, rfl⟩

/-- C4 amended: an argument is marked required exactly when its full
dotted path is a member of the gathered required lists; for a body schema
without `allOf`, without `$ref` and without a property literally named
`required`, that union is the raw schema required list (appended three
times by the repeated layer checks, which membership ignores). -/
theorem c4_amended (spec : PyVal) (fuel : Nat) (bd props : Dict)
    (reqs : List PyVal) (args : ArgsMap)
    (hAllOf : lookupA bd "allOf" = Option.none)
    (hRef : lookupA bd "$ref" = Option.none)
    (hProps : lookupA bd "properties" = some (.dict props))
    (hReq : lookupA bd "required" = some (.list reqs))
    (hPropsReq : lookupA props "required" = Option.none)
    (hParse : parseArgs spec fuel props [] [] = .ok args) :
    processBodySchema spec fuel (.dict bd) = .ok (args, reqs ++ reqs ++ reqs) ∧
    ∀ a ∈ buildCLIArgs args (reqs ++ reqs ++ reqs), a.required = memStr reqs a.path := by
  have hcAllOf : containsA bd "allOf" = false := by simp [containsA, hAllOf]
  have hcRef : containsA bd "$ref" = false := by simp [containsA, hRef]
  have hcProps : containsA bd "properties" = true := by simp [containsA, hProps]
  constructor
  · unfold processBodySchema
    simp [asDict, hReq, hcAllOf, hcRef, hcProps, hProps, hPropsReq, pyGet, hParse,
      pyElems, Bind.bind, Except.bind]
  · intro a ha
    obtain ⟨kv, _, rfl⟩ := List.mem_map.mp ha
    show memStr (reqs ++ reqs ++ reqs) kv.1 = memStr reqs kv.1
    simp only [memStr_append]
    cases memStr reqs kv.1 <;> simp

/-- Witness for the amended C4 at the flat schema whose `required` list
names the property `label` by its full path. -/
theorem c4_amended_witness :
    processBodySchema (.dict []) 10 (.dict flatRequiredDict) =
      .ok ([("label",
        { ty := "string", desc := "Label of the thing. Must be unique.",
          name := "label", fmt := Option.none })],
        [PyVal.str "label"] ++ [PyVal.str "label"] ++ [PyVal.str "label"]) ∧
    ∀ a ∈ buildCLIArgs
        [("label",
          { ty := "string", desc := "Label of the thing. Must be unique.",
            name := "label", fmt := Option.none })]
        ([PyVal.str "label"] ++ [PyVal.str "label"] ++ [PyVal.str "label"]),
      a.required = memStr [PyVal.str "label"] a.path :=
  c4_amended (.dict []) 10 flatRequiredDict flatRequiredProps [PyVal.str "label"]
    [("label",
      { ty := "string", desc := "Label of the thing. Must be unique.",
        name := "label", fmt := Option.none })]
    rfl rfl rfl rfl rfl rfl

/-- C6: column derivation is transparent to the pagination envelope: a
response schema carrying a `pages` counter alongside a `data` array whose
items resolve to a row schema produces exactly the response model obtained
from that row schema directly. -/
theorem c6_envelope_transparency (spec : PyVal) (fuel : Nat)
    (ed eprops dd R : Dict) (P items rows nested : PyVal)
    (hRef : lookupA ed "$ref" = Option.none)
    (hAllOf : lookupA ed "allOf" = Option.none)
    (hProps : lookupA ed "properties" = some (.dict eprops))
    (hPages : lookupA eprops "pages" = some P)
    (hData : lookupA eprops "data" = some (.dict dd))
    (hItems : lookupA dd "items" = some items)
    (hResolve : resolveItems spec items = .ok (.dict R))
    (hRRef : lookupA R "$ref" = Option.none)
    (hRAllOf : lookupA R "allOf" = Option.none)
    (hRPages : lookupA R "pages" = Option.none)
    (hRPropsPages : ∀ rp, lookupA R "properties" = some (.dict rp) →
        lookupA rp "pages" = Option.none) :
    deriveResponseModel spec fuel (.dict ed) rows nested =
      deriveResponseModel spec fuel (.dict R) rows nested := by
  have hcE : containsA eprops "pages" = true := by simp [containsA, hPages]
  unfold deriveResponseModel
  simp only [getK, hRef, hAllOf, hProps, hRRef, hRAllOf, hRPages, hPages, hData,
    hItems, hcE, hResolve, asDict, Bind.bind, Except.bind, Option.isSome_some,
    Option.isSome_none, Bool.and_true, Bool.and_false, Option.getD_some, if_true,
    if_false, Bool.false_and, Bool.true_and]
  cases hrp : lookupA R "properties" with
  | none => simp [hrp, hRPages]
  | some v =>
    cases v with
    | dict rp =>
      have hrpp := hRPropsPages rp hrp
      simp [hrp, hRPages, containsA, hrpp]
    | str s => simp [hrp, hRPages]
    | int n => simp [hrp, hRPages]
    | bool b => simp [hrp, hRPages]
    | list xs => simp [hrp, hRPages]
    | none => simp [hrp, hRPages]

/-- Witness for C6 at the concrete envelope around the row schema with
properties `id` and `status`. -/
theorem c6_witness :
    deriveResponseModel (.dict []) 10 (.dict envSchemaEx) .none .none =
      deriveResponseModel (.dict []) 10 (.dict rowSchemaEx) .none .none :=
  c6_envelope_transparency (.dict []) 10 envSchemaEx
    [("pages", .dict [("type", .str "integer")]),
     ("page", .dict [("type", .str "integer")]),
     ("data", .dict [("type", .str "array"), ("items", .dict rowSchemaEx)])]
    [("type", .str "array"), ("items", .dict rowSchemaEx)] rowSchemaEx
    (.dict [("type", .str "integer")]) (.dict rowSchemaEx) .none .none
    rfl rfl rfl rfl rfl rfl rfl rfl rfl rfl
    (fun rp hrp => by
      have h0 : lookupA rowSchemaEx "properties" =
          some (PyVal.dict [("id", PyVal.dict [("type", PyVal.str "integer")]),
            ("status", PyVal.dict [("type", PyVal.str "string")])]) := rfl
      rw [h0] at hrp
      injection hrp with h1
      injection h1 with h2
      rw [← h2]
      rfl)

/-- Finding by alias returns the unique operation carrying the alias. -/
theorem find_alias_unique (acts : List (String × CLIOperation)) (al : String)
    (op : CLIOperation)
    (hex : ∃ kv ∈ acts, memStr kv.2.actionAliases al = true)
    (huniq : ∀ kv ∈ acts, memStr kv.2.actionAliases al = true → kv.2 = op) :
    ∃ kv1, acts.find? (fun kv => memStr kv.2.actionAliases al) = some kv1 ∧
      kv1.2 = op := by
  induction acts with
  | nil =>
    obtain ⟨kv, hkv, _⟩ := hex
    simp at hkv
  | cons h rest ih =>
    by_cases hh : memStr h.2.actionAliases al = true
    · exact ⟨h, List.find?_cons_of_pos _ hh, huniq h (List.mem_cons_self h rest) hh⟩
    · have hfind := List.find?_cons_of_neg (p := fun kv => memStr kv.2.actionAliases al)
        rest (by simpa using hh)
      obtain ⟨kv, hkv, hkv2⟩ := hex
      rcases List.mem_cons.mp hkv with he | hm
      · exact absurd (he ▸ hkv2) hh
      · obtain ⟨kv1, h1, h2⟩ :=
          ih ⟨kv, hm, hkv2⟩ (fun q hq hqa => huniq q (List.mem_cons_of_mem _ hq) hqa)
        exact ⟨kv1, by rw [hfind]; exact h1, h2⟩

/-- C9 counterexample: `ls` is a registered alias of the `list` operation
and `CLI.handle_command` resolves it to that operation, but
`CLI.call_operation` (cli.py lines 783-786), equally part of the claim's
cited scope and the source of the quoted `Unknown command/action` message,
never consults `action_aliases`: dispatching the very same alias through it
fails with that error, so dispatch does fail for a name matching an alias,
and an alias does not resolve to the same operation as the canonical name
on the whole cited scope. -/
theorem c9_counterexample :
    memStr opList.actionAliases "ls" = true ∧
    findOperation opsEx "linodes" "ls" = .ok opList ∧
    callOperation opsEx "linodes" "list" = .ok opList ∧
    callOperation opsEx "linodes" "ls" =
      .error "Unknown command/action linodes/ls" :=
  ⟨rfl, rfl, rfl, rfl⟩

/-- C9 (amended): alias resolution lives only in `CLI.handle_command`.
Under a command whose canonical action names are unique, `handle_command`
dispatch resolves any alias of an operation (when the alias is not itself a
canonical action and belongs to that operation alone) to the same operation
as its canonical action name, and fails exactly when the name is neither a
canonical action nor an alias of any operation of the command; whereas
`CLI.call_operation` resolves canonical action names only and raises
`Unknown command/action` for every name that is not one — registered
aliases included. -/
theorem c9_amended (ops : List (String × List (String × CLIOperation)))
    (command : String) (acts : List (String × CLIOperation))
    (hline : lookupA ops command = some acts)
    (hnd : (keysA acts).Nodup) :
    (∀ (name : String) (op : CLIOperation) (al : String),
        (name, op) ∈ acts →
        memStr op.actionAliases al = true →
        al ∉ keysA acts →
        (∀ kv ∈ acts, memStr kv.2.actionAliases al = true → kv.2 = op) →
        findOperation ops command name = .ok op ∧
          findOperation ops command al = .ok op ∧
          callOperation ops command name = .ok op ∧
          callOperation ops command al =
            .error ("Unknown command/action " ++ command ++ "/" ++ al)) ∧
    (∀ x : String, x ∉ keysA acts →
        (∀ kv ∈ acts, memStr kv.2.actionAliases x = false) →
        (findOperation ops command x).isOk = false ∧
          callOperation ops command x =
            .error ("Unknown command/action " ++ command ++ "/" ++ x)) := by
  constructor
  · intro name op al hmem hal halk huniq
    refine ⟨?_, ?_, ?_, ?_⟩
    · simp only [findOperation, hline]
      simp [lookupA_of_mem hnd hmem]
    · simp only [findOperation, hline]
      rw [(lookupA_eq_none acts al).mpr halk]
      obtain ⟨kv1, h1, h2⟩ := find_alias_unique acts al op ⟨(name, op), hmem, hal⟩ huniq
      simp [h1, h2]
    · simp only [callOperation, hline]
      simp [lookupA_of_mem hnd hmem]
    · simp only [callOperation, hline]
      rw [(lookupA_eq_none acts al).mpr halk]
  · intro x hxk hxa
    constructor
    · simp only [findOperation, hline]
      rw [(lookupA_eq_none acts x).mpr hxk]
      have hnone : acts.find? (fun kv => memStr kv.2.actionAliases x) = Option.none :=
        List.find?_eq_none.mpr (fun kv hkv => by simp [hxa kv hkv])
      simp [hnone, Except.isOk, Except.toBool]
    · simp only [callOperation, hline]
      rw [(lookupA_eq_none acts x).mpr hxk]

/-- Witness for the amended C9 at the concrete two-operation registry,
dispatching the canonical name `list`, its alias `ls` and the unknown name
`nope` through both resolution paths. -/
theorem c9_amended_witness :
    (findOperation opsEx "linodes" "list" = .ok opList ∧
      findOperation opsEx "linodes" "ls" = .ok opList ∧
      callOperation opsEx "linodes" "list" = .ok opList ∧
      callOperation opsEx "linodes" "ls" =
        .error "Unknown command/action linodes/ls") ∧
    ((findOperation opsEx "linodes" "nope").isOk = false ∧
      callOperation opsEx "linodes" "nope" =
        .error "Unknown command/action linodes/nope") := by
  have h := c9_amended opsEx "linodes" [("list", opList), ("view", opView)]
    rfl (by decide)
  refine ⟨h.1 "list" opList "ls" (List.mem_cons_self _ _) rfl (by decide) ?_,
    h.2 "nope" (by decide) ?_⟩
  · intro kv hkv hma
    rcases List.mem_cons.mp hkv with he | hm
    · exact congrArg Prod.snd he
    · rcases List.mem_cons.mp hm with he2 | hm2
      · rw [he2] at hma
        exact absurd hma (by decide)
      · simp at hm2
  · intro kv hkv
    rcases List.mem_cons.mp hkv with he | hm
    · rw [he]; rfl
    · rcases List.mem_cons.mp hm with he2 | hm2
      · rw [he2]; rfl
      · simp at hm2

/-- A failing `addPath` makes the whole paths fold fail, whatever the
accumulated ops. -/
theorem c8_fold_fails (spec : PyVal) (fuel : Nat) (ds : List String)
    (paths : Dict) (pk : String) (pv : PyVal)
    (hmem : (pk, pv) ∈ paths)
    (hfail : (compilePath spec fuel ds pk pv).isOk = false) :
    ∀ acc, (paths.foldlM (addPath spec fuel ds) acc).isOk = false := by
  apply foldlM_isOk_false paths (addPath spec fuel ds) (pk, pv) hmem
  intro b
  cases hcp : compilePath spec fuel ds pk pv with
  | error e => simp [addPath, Bind.bind, Except.bind, hcp, Except.isOk, Except.toBool]
  | ok r =>
    rw [hcp] at hfail
    simp [Except.isOk, Except.toBool] at hfail

/-- C8: bake is all-or-nothing: when compiling any path of the document
fails with a schema error, the whole bake fails, and the previously
persisted artifact is left untouched (the artifact is written only after
every path and method compiled). -/
theorem c8_bake_all_or_nothing (spec : PyVal) (fuel : Nat) (specD paths : Dict)
    (pk : String) (pv : PyVal) (artifact : Option Registry)
    (hspec : spec = .dict specD)
    (hpaths : lookupA specD "paths" = some (.dict paths))
    (hmem : (pk, pv) ∈ paths)
    (hfail : ∀ ds : List String, (compilePath spec fuel ds pk pv).isOk = false) :
    (bakeRun spec fuel artifact).1 = artifact ∧
      ((bakeRun spec fuel artifact).2).isSome = true := by
  have hCA : (compileAll spec fuel).isOk = false := by
    subst hspec
    unfold compileAll
    rw [show asDict (.dict specD) = Except.ok specD from rfl, ok_bind]
    cases hs : keyOf specD "servers" with
    | error e => rfl
    | ok sv =>
      rw [ok_bind]
      cases he : pyElems sv with
      | error e => rfl
      | ok xs =>
        rw [ok_bind]
        cases hsu : serverUrls xs with
        | error e => rfl
        | ok ds =>
          rw [ok_bind]
          rw [show keyOf specD "paths" = Except.ok (.dict paths) from by
            simp [keyOf, hpaths], ok_bind]
          rw [show asDict (PyVal.dict paths) = Except.ok paths from rfl, ok_bind]
          cases hfold : paths.foldlM (addPath (.dict specD) fuel ds) [] with
          | error e => rfl
          | ok ops =>
            have hprop := c8_fold_fails (.dict specD) fuel ds paths pk pv hmem (hfail ds) []
            rw [hfold] at hprop
            simp [Except.isOk, Except.toBool] at hprop
  cases hall : compileAll spec fuel with
  | ok r =>
    rw [hall] at hCA
    simp [Except.isOk, Except.toBool] at hCA
  | error e => simp [bakeRun, hall]

/-- Witness for C8 at the document with the broken reference: the old
artifact survives and an error is reported. -/
theorem c8_witness :
    (bakeRun brokenRefSpec 10 (some oldRegistry)).1 = some oldRegistry ∧
      ((bakeRun brokenRefSpec 10 (some oldRegistry)).2).isSome = true :=
  c8_bake_all_or_nothing brokenRefSpec 10 brokenSpecDict
    [("/broken/\x7bid\x7d", brokenPathItem)] "/broken/\x7bid\x7d" brokenPathItem
    (some oldRegistry) rfl rfl (List.mem_singleton.mpr rfl) (fun _ => rfl)

/-- C1 is false on the code: for a schema with an array-of-objects field
the flat argument set holds `disks.label` and `disks.size`, and the
dotted-path re-nesting of the body construction rebuilds a nested dict
under `disks`, not an array, while the original schema types `disks` as
`array` — so the original nested JSON shape (an array of objects) is not
reproduced; the list reconstruction lives outside this loop. -/
theorem c1_counterexample :
    (parseArgs (.dict []) 10 disksSchema [] []).map
        (fun l => l.map (fun kv => kv.1)) = .ok ["disks.label", "disks.size"] ∧
    buildBody [("disks.label", .str "sda"), ("disks.size", .int 100)] =
      some [("disks", .dict [("label", .str "sda"), ("size", .int 100)])] ∧
    ((lookupA
        ((buildBody [("disks.label", PyVal.str "sda"), ("disks.size", PyVal.int 100)]).getD [])
        "disks").getD .none).isList = false ∧
    (lookupA disksSchema "disks").getD .none =
      .dict [("type", .str "array"),
        ("items", .dict
          [("type", .str "object"),
           ("properties", .dict
             [("label", .dict [("type", .str "string")]),
              ("size", .dict [("type", .str "integer")])])])] ∧
    pyGetStrOr
      [("type", .str "array"),
       ("items", .dict
         [("type", .str "object"),
          ("properties", .dict
            [("label", .dict [("type", .str "string")]),
             ("size", .dict [("type", .str "integer")])])])]
      "type" "string" = "array" :=
  ⟨rfl, rfl, rfl, rfl, rfl⟩

/-! ## The flatten/unflatten round trip (C1), supporting lemmas -/

theorem relArgs_shape (S : List (String × SSchema)) (p : List String)
    (hp : p ∈ relArgs S) : ∃ n q, p = n :: q ∧ n ∈ sNames S := by
  induction S with
  | nil => simp [relArgs] at hp
  | cons kv rest ih =>
    obtain ⟨name, s⟩ := kv
    cases s with
    | leaf ro =>
      simp only [relArgs] at hp
      rcases List.mem_append.mp hp with h1 | h2
      · by_cases hro : ro
        · simp [hro] at h1
        · rw [if_neg hro] at h1
          simp only [List.mem_singleton] at h1
          exact ⟨name, [], h1, by simp [sNames]⟩
      · obtain ⟨n, q, he, hn⟩ := ih h2
        exact ⟨n, q, he, by simp [sNames] at hn ⊢; exact Or.inr hn⟩
    | obj props =>
      simp only [relArgs] at hp
      rcases List.mem_append.mp hp with h1 | h2
      · obtain ⟨q, _, he⟩ := List.mem_map.mp h1
        exact ⟨name, q, he.symm, by simp [sNames]⟩
      · obtain ⟨n, q, he, hn⟩ := ih h2
        exact ⟨n, q, he, by simp [sNames] at hn ⊢; exact Or.inr hn⟩

theorem models_names {S : List (String × SSchema)} {props : Dict}
    (h : Models S props) : sNames S = keysA props := by
  induction h with
  | nil => rfl
  | leaf name d ro Srest rest _ _ _ _ _ _ _ _ ih => simp [sNames, keysA] at ih ⊢; exact ih
  | obj name d props2 S2 Srest rest _ _ _ _ _ _ _ _ _ ih2 => simp [sNames, keysA] at ih2 ⊢; exact ih2

theorem models_relArgs_dotFree {S : List (String × SSchema)} {props : Dict}
    (h : Models S props) : ∀ p ∈ relArgs S, ∀ s ∈ p, dotFree s := by
  induction h with
  | nil => simp [relArgs]
  | leaf name d ro Srest rest _ _ _ _ _ hdf _ _ ih =>
    intro p hp s hs
    simp only [relArgs] at hp
    rcases List.mem_append.mp hp with h1 | h2
    · by_cases hro : ro
      · simp [hro] at h1
      · rw [if_neg hro] at h1
        simp only [List.mem_singleton] at h1
        subst h1
        simp only [List.mem_singleton] at hs
        subst hs
        exact hdf
    · exact ih p h2 s hs
  | obj name d props2 S2 Srest rest _ _ _ _ _ hdf _ _ ihS2 ih =>
    intro p hp s hs
    simp only [relArgs] at hp
    rcases List.mem_append.mp hp with h1 | h2
    · obtain ⟨q, hq, he⟩ := List.mem_map.mp h1
      subst he
      rcases List.mem_cons.mp hs with hs1 | hs2
      · subst hs1; exact hdf
      · exact ihS2 q hq s hs2
    · exact ih p h2 s hs

theorem models_swf {S : List (String × SSchema)} {props : Dict}
    (h : Models S props) : SWf S := by
  induction h with
  | nil => exact SWf.nil
  | leaf name d ro Srest rest _ _ _ _ _ _ hfresh hrest ih =>
    refine SWf.leaf name ro Srest ?_ ih
    rw [models_names hrest]
    exact hfresh
  | obj name d props2 S2 Srest rest _ _ _ hm2 hprod _ hfresh hrest ih2 ih =>
    refine SWf.obj name S2 Srest ?_ hprod ih2 ih
    rw [models_names hrest]
    exact hfresh

theorem expandPaths_eq_foldInsert (pairs : List (List String × PyVal)) :
    ∀ acc : Dict,
      (∀ e ∈ pairs, e.1 ≠ [] ∧ ∀ s ∈ e.1, dotFree s) →
      expandPaths (pairs.map (fun e => (pyJoinDot e.1, e.2))) acc = foldInsert acc pairs := by
  induction pairs with
  | nil => intro acc _; rfl
  | cons e rest ih =>
    intro acc h
    obtain ⟨hne, hdf⟩ := h e (List.mem_cons_self e rest)
    simp only [List.map_cons, expandPaths, foldInsert]
    rw [split_join e.1 hne hdf]
    cases h2 : insertSeg acc e.1 e.2 with
    | none => rfl
    | some acc2 =>
      simp only [Option.some_bind]
      exact ih acc2 (fun x hx => h x (List.mem_cons_of_mem _ hx))

theorem foldInsert_append (xs ys : List (List String × PyVal)) :
    ∀ acc : Dict,
      foldInsert acc (xs ++ ys) = (foldInsert acc xs).bind (fun a => foldInsert a ys) := by
  induction xs with
  | nil => intro acc; rfl
  | cons e rest ih =>
    intro acc
    obtain ⟨p, val⟩ := e
    simp only [List.cons_append, foldInsert]
    cases h2 : insertSeg acc p val with
    | none => rfl
    | some acc2 => simp only [Option.some_bind]; exact ih acc2

theorem setA_append_last {α : Type} {acc : List (String × α)} {k : String} (x y : α)
    (h : lookupA acc k = Option.none) :
    setA (acc ++ [(k, x)]) k y = acc ++ [(k, y)] := by
  induction acc with
  | nil => simp [setA]
  | cons kv rest ih =>
    obtain ⟨a, w⟩ := kv
    by_cases ha : a = k
    · subst ha; simp [lookupA] at h
    · simp only [lookupA, if_neg ha] at h
      simp [setA, ha, ih h]

theorem foldInsert_under (pairs : List (List String × PyVal)) (name : String) :
    ∀ (acc m : Dict),
      (∀ e ∈ pairs, e.1 ≠ []) →
      lookupA acc name = some (.dict m) →
      foldInsert acc (pairs.map (fun e => (name :: e.1, e.2))) =
        (foldInsert m pairs).map (fun m2 => setA acc name (.dict m2)) := by
  induction pairs with
  | nil =>
    intro acc m _ hm
    simp only [List.map_nil, foldInsert, Option.map_some']
    rw [setA_of_lookup_self hm]
  | cons e rest ih =>
    intro acc m hne hm
    obtain ⟨q, val⟩ := e
    obtain ⟨q0, qs, rfl⟩ : ∃ q0 qs, q = q0 :: qs := by
      cases q with
      | nil => exact absurd rfl (hne (([] : List String), val) (List.mem_cons_self _ _))
      | cons q0 qs => exact ⟨q0, qs, rfl⟩
    simp only [List.map_cons, foldInsert, insertSeg, hm]
    cases his : insertSeg m (q0 :: qs) val with
    | none => rfl
    | some m2 =>
      simp only [Option.map_some', Option.some_bind]
      rw [ih (setA acc name (.dict m2)) m2
        (fun x hx => hne x (List.mem_cons_of_mem _ hx))
        (lookupA_setA_self acc name (.dict m2))]
      cases foldInsert m2 rest with
      | none => rfl
      | some m3 => simp only [Option.map_some', setA_setA_same]

theorem foldInsert_fresh (pairs : List (List String × PyVal)) (name : String)
    (acc : Dict) (hpairs : pairs ≠ []) (hne : ∀ e ∈ pairs, e.1 ≠ [])
    (hacc : lookupA acc name = Option.none) :
    foldInsert acc (pairs.map (fun e => (name :: e.1, e.2))) =
      (foldInsert [] pairs).map (fun m2 => acc ++ [(name, .dict m2)]) := by
  obtain ⟨e, rest, rfl⟩ : ∃ e rest, pairs = e :: rest := by
    cases pairs with
    | nil => exact absurd rfl hpairs
    | cons e rest => exact ⟨e, rest, rfl⟩
  obtain ⟨q, val⟩ := e
  obtain ⟨q0, qs, rfl⟩ : ∃ q0 qs, q = q0 :: qs := by
    cases q with
    | nil => exact absurd rfl (hne (([] : List String), val) (List.mem_cons_self _ _))
    | cons q0 qs => exact ⟨q0, qs, rfl⟩
  simp only [List.map_cons, foldInsert, insertSeg, hacc]
  cases his : insertSeg ([] : Dict) (q0 :: qs) val with
  | none => rfl
  | some m1 =>
    simp only [Option.map_some', Option.some_bind]
    rw [setA_of_not_mem _ hacc]
    have hlk : lookupA (acc ++ [(name, PyVal.dict m1)]) name = some (PyVal.dict m1) := by
      rw [lookupA_append, hacc]
      simp [lookupA]
    rw [foldInsert_under rest name (acc ++ [(name, PyVal.dict m1)]) m1
      (fun x hx => hne x (List.mem_cons_of_mem _ hx)) hlk]
    cases foldInsert m1 rest with
    | none => rfl
    | some m3 => simp only [Option.map_some', setA_append_last _ _ hacc]

theorem foldInsert_flat {S : List (String × SSchema)} (hwf : SWf S) :
    ∀ (v : List String → PyVal) (acc : Dict),
      (∀ n ∈ sNames S, lookupA acc n = Option.none) →
      foldInsert acc (flatPairs v S) = some (acc ++ buildShape v S) := by
  induction hwf with
  | nil =>
    intro v acc _
    simp [flatPairs, relArgs, foldInsert, buildShape]
  | leaf name ro rest hfresh hrest ih =>
    intro v acc hacc
    by_cases hro : ro
    · subst hro
      have h1 : flatPairs v ((name, SSchema.leaf true) :: rest) = flatPairs v rest := by
        simp [flatPairs, relArgs]
      have h2 : buildShape v ((name, SSchema.leaf true) :: rest) = buildShape v rest := by
        simp [buildShape]
      rw [h1, h2]
      exact ih v acc (fun n hn => hacc n (by simp [sNames] at hn ⊢; exact Or.inr hn))
    · have hro' : ro = false := by cases ro <;> simp_all
      subst hro'
      have h1 : flatPairs v ((name, SSchema.leaf false) :: rest) =
          ([name], v [name]) :: flatPairs v rest := by
        simp [flatPairs, relArgs]
      have h2 : buildShape v ((name, SSchema.leaf false) :: rest) =
          (name, v [name]) :: buildShape v rest := by
        simp [buildShape]
      rw [h1, h2]
      have hn0 : lookupA acc name = Option.none := hacc name (by simp [sNames])
      simp only [foldInsert, insertSeg]
      rw [setA_of_not_mem _ hn0]
      simp only [Option.some_bind]
      rw [ih v (acc ++ [(name, v [name])]) ?_]
      · rw [List.append_assoc]
        rfl
      · intro n hn
        rw [lookupA_append]
        rw [hacc n (by simp [sNames] at hn ⊢; exact Or.inr hn)]
        have hnn : ¬ name = n := by
          intro he
          subst he
          exact hfresh hn
        simp [lookupA, hnn]
  | obj name props rest hfresh hprod hprops hrest ihp ihr =>
    intro v acc hacc
    have h1 : flatPairs v ((name, SSchema.obj props) :: rest) =
        (flatPairs (shiftV name v) props).map (fun e => (name :: e.1, e.2)) ++
          flatPairs v rest := by
      simp only [flatPairs, relArgs, List.map_append, List.map_map]
      rfl
    have h2 : buildShape v ((name, SSchema.obj props) :: rest) =
        (name, PyVal.dict (buildShape (shiftV name v) props)) :: buildShape v rest := by
      simp [buildShape]
    rw [h1, h2, foldInsert_append]
    have hn0 : lookupA acc name = Option.none := hacc name (by simp [sNames])
    rw [foldInsert_fresh (flatPairs (shiftV name v) props) name acc ?_ ?_ hn0]
    · rw [ihp (shiftV name v) [] (fun n _ => rfl)]
      simp only [List.nil_append, Option.map_some', Option.some_bind]
      rw [ihr v (acc ++ [(name, PyVal.dict (buildShape (shiftV name v) props))]) ?_]
      · rw [List.append_assoc]
        rfl
      · intro n hn
        rw [lookupA_append]
        rw [hacc n (by simp [sNames] at hn ⊢; exact Or.inr hn)]
        have hnn : ¬ name = n := by
          intro he
          subst he
          exact hfresh hn
        simp [lookupA, hnn]
    · intro he
      rw [flatPairs, List.map_eq_nil_iff] at he
      exact hprod he
    · intro e hee
      obtain ⟨p, hp, rfl⟩ : ∃ p, p ∈ relArgs props ∧ (p, shiftV name v p) = e := by
        simpa [flatPairs] using hee
      obtain ⟨n, q, heq, _⟩ := relArgs_shape props p hp
      simp [heq]

theorem resolveRefChain_no_ref {d : Dict} (h : lookupA d "$ref" = Option.none)
    (spec : PyVal) (n : Nat) : resolveRefChain spec n d = .ok d := by
  cases n <;> simp [resolveRefChain, h]

theorem fresh_step {Srest : List (String × SSchema)} {rest : Dict}
    (hrestM : Models Srest rest) (pfx : List String)
    (hpfx : ∀ s ∈ pfx, dotFree s) {name : String} (hdfn : dotFree name)
    (hfresh : name ∉ keysA rest) {p : List String} (hp : p ∈ relArgs Srest)
    {q : List String} (hq : ∀ s ∈ q, dotFree s) :
    pyJoinDot (pfx ++ p) ≠ pyJoinDot ((pfx ++ [name]) ++ q) := by
  intro heq
  obtain ⟨n, q2, rfl, hn⟩ := relArgs_shape Srest p hp
  have hdfp := models_relArgs_dotFree hrestM _ hp
  have he2 : pfx ++ n :: q2 = (pfx ++ [name]) ++ q :=
    join_inj (by simp) (by simp)
      (by
        intro s hs
        rcases List.mem_append.mp hs with h1 | h2
        · exact hpfx s h1
        · exact hdfp s h2)
      (by
        intro s hs
        rcases List.mem_append.mp hs with h1 | h2
        · rcases List.mem_append.mp h1 with h3 | h4
          · exact hpfx s h3
          · simp only [List.mem_singleton] at h4
            subst h4
            exact hdfn
        · exact hq s h2)
      heq
  rw [← List.append_cons] at he2
  have he3 : (n :: q2 : List String) = name :: q := List.append_cancel_left he2
  have hnn : n = name := by injection he3
  rw [models_names hrestM] at hn
  rw [hnn] at hn
  exact hfresh hn

theorem parseArgs_keys {S : List (String × SSchema)} {props : Dict}
    (hm : Models S props) :
    ∀ (spec : PyVal) (fuel : Nat) (pfx : List String) (args0 r : ArgsMap),
      (∀ s ∈ pfx, dotFree s) →
      parseArgs spec fuel props pfx args0 = .ok r →
      (∀ p ∈ relArgs S, lookupA args0 (pyJoinDot (pfx ++ p)) = Option.none) →
      ∃ Δ, r = args0 ++ Δ ∧
        keysA Δ = (relArgs S).map (fun p => pyJoinDot (pfx ++ p)) := by
  induction hm with
  | nil =>
    intro spec fuel pfx args0 r _ hp _
    cases fuel with
    | zero =>
      rw [parseArgs.eq_1] at hp
      exact Except.noConfusion hp
    | succ f =>
      rw [parseArgs.eq_2] at hp
      refine ⟨[], ?_, by simp [relArgs, keysA]⟩
      have h2 : args0 = r := by injection hp
      simp [← h2]
  | leaf name d ro Srest rest hAllOf hRef hProps hRo hArr hdfn hfresh hrestM ih =>
    intro spec fuel pfx args0 r hpfx hp hfreshA
    cases fuel with
    | zero =>
      rw [parseArgs.eq_1] at hp
      exact Except.noConfusion hp
    | succ f =>
      have hAllOfC : containsA d "allOf" = false := by simp [containsA, hAllOf]
      have hPropsC : containsA d "properties" = false := by simp [containsA, hProps]
      have hRefC : containsA d "$ref" = false := by simp [containsA, hRef]
      have hrc := resolveRefChain_no_ref hRef spec f
      cases ro with
      | true =>
        have hRoC : pyTruthy (pyGet d "readOnly") = true := hRo.symm
        simp only [parseArgs.eq_3, asDict, ok_bind, hAllOfC, hPropsC, hRefC, hrc, hRoC,
          Bool.false_eq_true, if_false, if_true] at hp
        obtain ⟨Δ, hΔ, hkeys⟩ := ih spec f pfx args0 r hpfx hp
          (fun p hp2 => hfreshA p (by simpa [relArgs] using hp2))
        exact ⟨Δ, hΔ, by simpa [relArgs] using hkeys⟩
      | false =>
        have hRoC : pyTruthy (pyGet d "readOnly") = false := hRo.symm
        simp only [parseArgs.eq_3, asDict, ok_bind, hAllOfC, hPropsC, hRefC, hrc, hRoC,
          Bool.false_eq_true, if_false] at hp
        have hcont : ∃ z, parseArgs spec f rest pfx
            (setA args0 (pyJoinDot (pfx ++ [name])) z) = .ok r := by
          by_cases hjson : (mkArgInfo name d).fmt = some "json"
          · rw [if_pos hjson] at hp
            exact ⟨_, hp⟩
          · rw [if_neg hjson] at hp
            by_cases hbool :
                (decide ((mkArgInfo name d).ty = "array") && containsA d "items") = true
            · rcases hArr rfl with hj | hno | ⟨di, t, hdi, hdiA, hdiR, hdiT, hnobj⟩
              · exact absurd hj hjson
              · exfalso
                apply hno
                simpa using hbool
              · rw [if_pos hbool] at hp
                have hdiAC : containsA di "allOf" = false := by simp [containsA, hdiA]
                have hdiRC : containsA di "$ref" = false := by simp [containsA, hdiR]
                simp only [hdi, hdiAC, hdiRC, hdiT, asDict, ok_bind,
                  Bool.false_eq_true, if_false] at hp
                have hcondF :
                    (decide (t = "object") && containsA di "properties" &&
                      !pyTruthy (pyGet di "readOnly")) = false := by
                  cases hc1 : decide (t = "object") with
                  | false => simp [hc1]
                  | true =>
                    cases hc2 : containsA di "properties" with
                    | false => simp [hc1, hc2]
                    | true =>
                      cases hc3 : pyTruthy (pyGet di "readOnly") with
                      | true => simp [hc1, hc2, hc3]
                      | false =>
                        exact absurd ⟨of_decide_eq_true hc1, hc2, hc3⟩ hnobj
                rw [hcondF] at hp
                simp only [Bool.false_eq_true, if_false] at hp
                exact ⟨_, hp⟩
            · rw [if_neg (by simpa using hbool)] at hp
              exact ⟨_, hp⟩
        obtain ⟨z, hp2⟩ := hcont
        have hm1 : [name] ∈ relArgs ((name, SSchema.leaf false) :: Srest) := by
          simp [relArgs]
        have hfresh0 : lookupA args0 (pyJoinDot (pfx ++ [name])) = Option.none :=
          hfreshA [name] hm1
        rw [setA_of_not_mem z hfresh0] at hp2
        have hfreshrest : ∀ p ∈ relArgs Srest,
            lookupA (args0 ++ [(pyJoinDot (pfx ++ [name]), z)])
              (pyJoinDot (pfx ++ p)) = Option.none := by
          intro p hp3
          rw [lookupA_append]
          rw [hfreshA p (by simp [relArgs]; exact Or.inr hp3)]
          have hne : pyJoinDot (pfx ++ p) ≠ pyJoinDot ((pfx ++ [name]) ++ []) :=
            fresh_step hrestM pfx hpfx hdfn hfresh hp3 (by simp)
          rw [List.append_nil] at hne
          have hne2 : ¬ pyJoinDot (pfx ++ [name]) = pyJoinDot (pfx ++ p) :=
            fun h => hne h.symm
          simp [lookupA, hne2]
        obtain ⟨Δ, hΔ, hkeys⟩ := ih spec f pfx
          (args0 ++ [(pyJoinDot (pfx ++ [name]), z)]) r hpfx hp2 hfreshrest
        refine ⟨(pyJoinDot (pfx ++ [name]), z) :: Δ, ?_, ?_⟩
        · rw [hΔ, List.append_assoc]
          rfl
        · simp [keysA, relArgs] at hkeys ⊢
          exact hkeys
  | obj name d props2 S2 Srest rest hAllOf hRef hProps hm2 hprod hdfn hfresh hrestM ih2 ih =>
    intro spec fuel pfx args0 r hpfx hp hfreshA
    cases fuel with
    | zero =>
      rw [parseArgs.eq_1] at hp
      exact Except.noConfusion hp
    | succ f =>
      have hAllOfC : containsA d "allOf" = false := by simp [containsA, hAllOf]
      have hPropsC : containsA d "properties" = true := by simp [containsA, hProps]
      have hrc := resolveRefChain_no_ref hRef spec f
      have hPg : pyGet d "properties" = .dict props2 := by simp [pyGet, hProps]
      simp only [parseArgs.eq_3, asDict, ok_bind, hAllOfC, hPropsC, hrc, hPg,
        Bool.false_eq_true, if_false, if_true] at hp
      cases hd : parseArgs spec f props2 (pfx ++ [name]) args0 with
      | error e =>
        rw [hd] at hp
        simp [error_bind] at hp
      | ok args1 =>
        rw [hd] at hp
        rw [ok_bind] at hp
        have hpfx2 : ∀ s ∈ pfx ++ [name], dotFree s := by
          intro s hs
          rcases List.mem_append.mp hs with h1 | h2
          · exact hpfx s h1
          · simp only [List.mem_singleton] at h2
            subst h2
            exact hdfn
        have hfresh2 : ∀ q ∈ relArgs S2,
            lookupA args0 (pyJoinDot ((pfx ++ [name]) ++ q)) = Option.none := by
          intro q hq
          have hmem : (name :: q) ∈ relArgs ((name, SSchema.obj S2) :: Srest) := by
            simp only [relArgs, List.mem_append]
            exact Or.inl (List.mem_map.mpr ⟨q, hq, rfl⟩)
          have := hfreshA (name :: q) hmem
          rw [List.append_cons] at this
          exact this
        obtain ⟨Δ2, hΔ2, hkeys2⟩ := ih2 spec f (pfx ++ [name]) args0 args1 hpfx2 hd hfresh2
        have hfreshR : ∀ p ∈ relArgs Srest,
            lookupA args1 (pyJoinDot (pfx ++ p)) = Option.none := by
          intro p hp3
          rw [hΔ2, lookupA_append]
          rw [hfreshA p (by simp [relArgs]; exact Or.inr hp3)]
          have hnone : lookupA Δ2 (pyJoinDot (pfx ++ p)) = Option.none := by
            rw [lookupA_eq_none, hkeys2]
            intro hmm
            obtain ⟨q, hq, heq⟩ := List.mem_map.mp hmm
            exact fresh_step hrestM pfx hpfx hdfn hfresh hp3
              (models_relArgs_dotFree hm2 q hq) heq.symm
          rw [hnone]
          rfl
        obtain ⟨Δr, hΔr, hkeysr⟩ := ih spec f pfx args1 r hpfx hp hfreshR
        refine ⟨Δ2 ++ Δr, ?_, ?_⟩
        · rw [hΔr, hΔ2, List.append_assoc]
        · have hcomp : ∀ q : List String,
              pyJoinDot (pfx ++ (name :: q)) = pyJoinDot ((pfx ++ [name]) ++ q) :=
            fun q => by rw [List.append_cons]
          simp only [keysA, List.map_append] at hkeys2 hkeysr ⊢
          rw [hkeys2, hkeysr]
          simp only [relArgs, List.map_append, List.map_map]
          refine congrArg₂ (· ++ ·) ?_ rfl
          apply List.map_congr_left
          intro q _
          exact (hcomp q).symm

/-- C1 amended: for a resolved request-body schema with unique, dot-free
property names, no array-of-object fields (those produce list-item
arguments whose reconstruction lives outside the dotted-path loop), and
every nested object keeping at least one writable leaf, flattening the
properties and re-nesting a fully populated (non-None) flat argument set
through the body construction reproduces the original nested JSON shape,
with read-only leaves excluded on both sides (read-only objects with
properties are still descended into). -/
theorem c1_roundtrip_amended (spec : PyVal) (fuel : Nat)
    (S : List (String × SSchema)) (props : Dict) (v : String → PyVal)
    (args : ArgsMap)
    (hm : Models S props)
    (hv : ∀ s, (v s).isNone = false)
    (hp : parseArgs spec fuel props [] [] = .ok args) :
    buildBody (args.map (fun kv => (kv.1, v kv.1))) =
      some (buildShape (fun p => v (pyJoinDot p)) S) := by
  obtain ⟨Δ, hΔ, hkeys⟩ := parseArgs_keys hm spec fuel [] [] args (by simp) hp
    (fun p _ => rfl)
  have hargsΔ : args = Δ := by simpa using hΔ
  have hkeys2 : keysA Δ = (relArgs S).map pyJoinDot := by
    rw [hkeys]
    simp
  have hflat : args.map (fun kv => (kv.1, v kv.1)) =
      (flatPairs (fun p => v (pyJoinDot p)) S).map (fun e => (pyJoinDot e.1, e.2)) := by
    rw [hargsΔ]
    have h1 : Δ.map (fun kv => (kv.1, v kv.1)) =
        (keysA Δ).map (fun k => (k, v k)) := by
      simp [keysA, List.map_map]
    rw [h1, hkeys2]
    simp [flatPairs, List.map_map]
  rw [hflat]
  unfold buildBody
  have hmemArgs : ∀ e ∈ flatPairs (fun p => v (pyJoinDot p)) S, e.1 ∈ relArgs S := by
    intro e he
    obtain ⟨p2, hp2, heq⟩ := List.mem_map.mp (by simpa [flatPairs] using he)
    rw [← heq]
    exact hp2
  have hfilter : ((flatPairs (fun p => v (pyJoinDot p)) S).map
      (fun e => (pyJoinDot e.1, e.2))).filter (fun kv => !kv.2.isNone) =
      (flatPairs (fun p => v (pyJoinDot p)) S).map (fun e => (pyJoinDot e.1, e.2)) := by
    apply List.filter_eq_self.mpr
    intro e he
    obtain ⟨e2, he2, heq⟩ := List.mem_map.mp he
    obtain ⟨p2, _, heq2⟩ := List.mem_map.mp (by simpa [flatPairs] using he2)
    rw [← heq, ← heq2]
    simp [hv]
  rw [hfilter]
  have hconds : ∀ e ∈ flatPairs (fun p => v (pyJoinDot p)) S,
      e.1 ≠ [] ∧ ∀ s ∈ e.1, dotFree s := by
    intro e he
    have he1 := hmemArgs e he
    constructor
    · obtain ⟨n, q, heq, _⟩ := relArgs_shape S e.1 he1
      simp [heq]
    · exact models_relArgs_dotFree hm e.1 he1
  rw [expandPaths_eq_foldInsert _ [] hconds]
  rw [foldInsert_flat (models_swf hm) _ [] (fun n _ => rfl)]
  simp

/-- Witness for the amended C1 at the schema with the nested object
`region.id` and the top-level leaf `label`, fully populated with the
string value `V`. -/
theorem c1_roundtrip_witness :
    buildBody [("region.id", PyVal.str "V"), ("label", PyVal.str "V")] =
      some (buildShape (fun _ => PyVal.str "V") roundTripShape) :=
  c1_roundtrip_amended (.dict []) 10 roundTripShape roundTripProps
    (fun _ => PyVal.str "V")
    [("region.id", { ty := "string", desc := "", name := "id", fmt := Option.none }),
     ("label", { ty := "string", desc := "", name := "label", fmt := Option.none })]
    (by
      refine Models.obj "region" _ _ _ _ _ rfl rfl rfl ?_ (by simp [relArgs])
        (by decide) (by decide) ?_
      · exact Models.leaf "id" _ false _ _ rfl rfl rfl rfl
          (fun _ => Or.inr (Or.inl (by decide))) (by decide) (by simp [keysA])
          Models.nil
      · exact Models.leaf "label" _ false _ _ rfl rfl rfl rfl
          (fun _ => Or.inr (Or.inl (by decide))) (by decide) (by simp [keysA])
          Models.nil)
    (fun _ => rfl) rfl

end LinodeCli
